import Mathlib

/-!
# wifi-signal-finder: the telemetry core of `web/static/app.js`

A shallow embedding of `normalizeSignal`, `pickBestSample`, `updateReadout`,
`renderGauge`, `handleStatus` and the handlers of `startStream`, and the properties
the specification states about them.

## Modelling conventions

* A JavaScript number is a `JSNum`: `NaN`, `-Infinity`, `+Infinity`, or a finite
  value carried as an exact rational; zero is unsigned. The arithmetic of the
  normalizer, of the readout and of the render loop is exact on finite values: the
  rounding of binary64 arithmetic is not modelled there.
* The sum `rx_mbps + tx_mbps` that breaks ties in `pickBestSample` is rounded to
  binary64 (`JSNum.add64`: nearest value, a tie going to the even significand, an
  overflow to an infinity), as the script computes it: there the rounding decides
  which sample is chosen. A finite field value stands for the binary64 number of
  that exact value (a decimal literal of a payload denotes the binary64 number
  nearest to it); the theorems hold for every rational, hence for every binary64
  number.
* A field value read from a parsed report is a `JSValue`: `undefined` (the field
  is missing), `null`, a boolean or a number. String, array and object field
  values are outside the model.
* `ToNumber`, `+`, `>`, `===`, `Math.min`, `Math.max`, `Math.round` and
  `Number.isNaN` follow ECMAScript on these values.
* The script's mutable world is passed explicitly: `State` is the object `state`,
  `Elements` what the page shows. A text written to the page keeps the numbers it
  embeds as numbers; their decimal expansion is not modelled. A decimal literal of
  the script (`0.08`, `1.2`, ...) is the rational it denotes.
* A call that can throw returns `Except World World`, the error carrying the world
  as the assignments before the throw left it. The runtime's scheduling is a list
  of `Event`s handled one at a time.
-/

/-- A JavaScript number: `NaN`, the two infinities, or a finite value. -/
inductive JSNum where
  | nan : JSNum
  | negInf : JSNum
  | fin (q : ℚ) : JSNum
  | posInf : JSNum
deriving DecidableEq

namespace JSNum

/-- The JavaScript comparison `a < b` on numbers: false as soon as one side is `NaN`. -/
def lt : JSNum → JSNum → Bool
  | nan, _ => false
  | _, nan => false
  | negInf, negInf => false
  | negInf, _ => true
  | posInf, _ => false
  | fin _, negInf => false
  | fin a, fin b => decide (a < b)
  | fin _, posInf => true

/-- The JavaScript comparison `a <= b` on numbers: false as soon as one side is `NaN`,
otherwise the negation of `b < a`. -/
def le : JSNum → JSNum → Bool
  | nan, _ => false
  | _, nan => false
  | a, b => !(lt b a)

/-- The JavaScript strict equality `a === b` on numbers: `NaN` equals nothing. -/
def strictEq : JSNum → JSNum → Bool
  | nan, _ => false
  | _, nan => false
  | a, b => decide (a = b)

/-- The sum `a + b` of two numbers before any rounding: exact on finite values. -/
def add : JSNum → JSNum → JSNum
  | nan, _ => nan
  | _, nan => nan
  | posInf, negInf => nan
  | negInf, posInf => nan
  | posInf, _ => posInf
  | _, posInf => posInf
  | negInf, _ => negInf
  | _, negInf => negInf
  | fin a, fin b => fin (a + b)

/-- The sign of a non-`NaN` number: `-1`, `0` or `1`. -/
def sign : JSNum → ℤ
  | nan => 0
  | negInf => -1
  | posInf => 1
  | fin q => if q < 0 then -1 else if q = 0 then 0 else 1

/-- The infinity of the sign `s`, `NaN` for the sign `0`. -/
def ofSign (s : ℤ) : JSNum :=
  if s < 0 then negInf else if s = 0 then nan else posInf

/-- The JavaScript product `a * b` on numbers: an infinity times zero is `NaN`. -/
def mul : JSNum → JSNum → JSNum
  | nan, _ => nan
  | _, nan => nan
  | fin a, fin b => fin (a * b)
  | a, b => ofSign (sign a * sign b)

/-- The JavaScript quotient `a / b` on numbers: a finite value over an infinity is
zero, zero over zero and an infinity over an infinity are `NaN`, and a non-zero
value over zero is the infinity of its sign. -/
def div : JSNum → JSNum → JSNum
  | nan, _ => nan
  | _, nan => nan
  | fin a, fin b => if b = 0 then ofSign (sign (fin a)) else fin (a / b)
  | fin _, _ => fin 0
  | a, fin b => if b = 0 then a else ofSign (sign a * sign (fin b))
  | _, _ => nan

/-- `Math.min(a, b)` on numbers: `NaN` as soon as one argument is `NaN`. -/
def min : JSNum → JSNum → JSNum
  | nan, _ => nan
  | _, nan => nan
  | a, b => if lt b a then b else a

/-- `Math.max(a, b)` on numbers: `NaN` as soon as one argument is `NaN`. -/
def max : JSNum → JSNum → JSNum
  | nan, _ => nan
  | _, nan => nan
  | a, b => if lt a b then b else a

/-- `Math.round(a)`: the integer nearest to `a`, a half rounding up. -/
def round : JSNum → JSNum
  | fin q => fin ⌊q + 1 / 2⌋
  | a => a

end JSNum

/-- The integer nearest to a rational, a half going to the even neighbour. -/
def roundHalfEven (x : ℚ) : ℤ :=
  if x - ⌊x⌋ < 1 / 2 then ⌊x⌋
  else if 1 / 2 < x - ⌊x⌋ then ⌊x⌋ + 1
  else if ⌊x⌋ % 2 = 0 then ⌊x⌋ else ⌊x⌋ + 1

/-- The binary exponent at which binary64 rounds a positive magnitude `m`: the
exponent of `m`, not below the least normal exponent `-1022` (below it the spacing of
the subnormal numbers applies). -/
def exponent64 (m : ℚ) : ℤ :=
  max (Int.log 2 m) (-1022)

/-- A positive magnitude rounded to the 53-bit significand of binary64, the exponent
unbounded above: the significand `m / 2 ^ (e - 52)` is rounded to an integer, a tie
going to the even one (IEEE 754 round-to-nearest-even). -/
def roundMagnitude64 (m : ℚ) : ℚ :=
  roundHalfEven (m / 2 ^ (exponent64 m - 52)) * 2 ^ (exponent64 m - 52)

/-- The binary64 number nearest to the rational `q`: its magnitude is rounded and a
magnitude that rounds to `2 ^ 1024` or more overflows to the infinity of the sign of
`q`. -/
def JSNum.ofRat64 (q : ℚ) : JSNum :=
  if q = 0 then JSNum.fin 0
  else if (2 : ℚ) ^ (1024 : ℕ) ≤ roundMagnitude64 |q| then
    if 0 < q then JSNum.posInf else JSNum.negInf
  else if 0 < q then JSNum.fin (roundMagnitude64 |q|)
  else JSNum.fin (-roundMagnitude64 |q|)

/-- The rounding of an exact result to binary64: `NaN` and the infinities are
themselves. -/
def JSNum.round64 : JSNum → JSNum
  | JSNum.fin q => JSNum.ofRat64 q
  | a => a

/-- The JavaScript sum `a + b` on numbers as binary64 computes it: the exact sum,
rounded. -/
def JSNum.add64 (a b : JSNum) : JSNum :=
  JSNum.round64 (JSNum.add a b)

/-- A field value of a parsed report: `undefined` when the field is missing,
`null`, a boolean or a number. -/
inductive JSValue where
  | undefined : JSValue
  | null : JSValue
  | bool (b : Bool) : JSValue
  | num (n : JSNum) : JSValue
deriving DecidableEq

namespace JSValue

/-- ECMAScript `ToNumber`. -/
def toNumber : JSValue → JSNum
  | undefined => JSNum.nan
  | null => JSNum.fin 0
  | bool true => JSNum.fin 1
  | bool false => JSNum.fin 0
  | num n => n

/-- `Number.isNaN(v)`: true only for the number `NaN`, with no coercion. -/
def isNaN : JSValue → Bool
  | num JSNum.nan => true
  | _ => false

/-- The JavaScript strict equality `a === b`: values of different types differ. -/
def strictEq : JSValue → JSValue → Bool
  | undefined, undefined => true
  | null, null => true
  | bool a, bool b => decide (a = b)
  | num a, num b => JSNum.strictEq a b
  | _, _ => false

/-- The JavaScript comparison `a > b`: both sides go through `ToNumber`. -/
def gt (a b : JSValue) : Bool :=
  JSNum.lt (toNumber b) (toNumber a)

/-- The JavaScript sum `a + b` of two values that are not strings: both sides go
through `ToNumber` and the sum is rounded to binary64. -/
def add (a b : JSValue) : JSNum :=
  JSNum.add64 (toNumber a) (toNumber b)

end JSValue

/-- The function `normalizeSignal` of `app.js`:
```
if (signalDbm === null || Number.isNaN(signalDbm)) return 0;
const clamped = Math.max(-100, Math.min(-30, signalDbm));
return Math.round(((clamped + 100) / 70) * 100);
```
-/
def normalizeSignal (signalDbm : JSValue) : JSNum :=
  if JSValue.strictEq signalDbm JSValue.null || JSValue.isNaN signalDbm then JSNum.fin 0
  else
    let clamped :=
      JSNum.max (JSNum.fin (-100)) (JSNum.min (JSNum.fin (-30)) (JSValue.toNumber signalDbm))
    JSNum.round
      (JSNum.mul (JSNum.div (JSNum.add clamped (JSNum.fin 100)) (JSNum.fin 70)) (JSNum.fin 100))

/-- One interface sample of a report, an object of the `interfaces` array.
`ssid` and `bssid` are `none` when the field is `null` or missing. -/
structure Sample where
  ssid : Option String
  bssid : Option String
  freq_mhz : JSValue
  signal_dbm : JSValue
  rx_mbps : JSValue
  tx_mbps : JSValue
deriving DecidableEq

/-- The callback that `pickBestSample` hands to `reduce`:
```
if (!best) return current;
if (current.signal_dbm > best.signal_dbm) return current;
if (current.signal_dbm === best.signal_dbm) {
  const bestRate = best.rx_mbps + best.tx_mbps;
  const currentRate = current.rx_mbps + current.tx_mbps;
  if (currentRate > bestRate) return current;
}
return best;
```
The accumulator `best` is `null` (`none`) or a sample. -/
def pickBestSample.reducer (best : Option Sample) (current : Sample) : Option Sample :=
  match best with
  | none => some current
  | some best =>
    if JSValue.gt current.signal_dbm best.signal_dbm then some current
    else if JSValue.strictEq current.signal_dbm best.signal_dbm then
      let bestRate := JSValue.add best.rx_mbps best.tx_mbps
      let currentRate := JSValue.add current.rx_mbps current.tx_mbps
      if JSNum.lt bestRate currentRate then some current else some best
    else some best

/-- The function `pickBestSample` of `app.js`:
```
if (!samples || samples.length === 0) return null;
return samples.reduce((best, current) => { ... }, null);
```
The argument is `none` when the array is `null` or missing. -/
def pickBestSample (samples : Option (List Sample)) : Option Sample :=
  match samples with
  | none => none
  | some samples =>
    if samples.length = 0 then none
    else samples.foldl pickBestSample.reducer none

/-- The value is a number other than `NaN`
(`typeof v === "number" && !Number.isNaN(v)`). -/
def JSValue.isNumber : JSValue → Bool
  | JSValue.num JSNum.nan => false
  | JSValue.num _ => true
  | _ => false

/-- The value is a finite number (`Number.isFinite(v)`). -/
def JSValue.isFiniteNumber : JSValue → Bool
  | JSValue.num (JSNum.fin _) => true
  | _ => false

/-- The value is a finite number or `null`. -/
def JSValue.isFiniteOrNull : JSValue → Bool
  | JSValue.num (JSNum.fin _) => true
  | JSValue.null => true
  | _ => false

/-- The sum `sample.rx_mbps + sample.tx_mbps` that the reducer of `pickBestSample`
computes for a sample. -/
def Sample.rate (s : Sample) : JSNum :=
  JSValue.add s.rx_mbps s.tx_mbps

/-- A throughput as the specification reads it for the tie-break, "missing throughput
values are treated as 0": a missing (`undefined`) or `null` value is `0`. -/
def throughputOrZero : JSValue → JSNum
  | JSValue.undefined => JSNum.fin 0
  | JSValue.null => JSNum.fin 0
  | v => JSValue.toNumber v

/-- The rx+tx sum of a sample as the specification reads it, each missing value
taken as `0`: the exact sum. -/
def Sample.specRate (s : Sample) : JSNum :=
  JSNum.add (throughputOrZero s.rx_mbps) (throughputOrZero s.tx_mbps)

/-- The rx+tx sum of a sample, each missing value taken as `0`, rounded to binary64
as the `+` of the script rounds it. -/
def Sample.specRate64 (s : Sample) : JSNum :=
  JSNum.round64 s.specRate

/-- The place of a number in the linear order `-Infinity < finite values < +Infinity`
(`NaN`, which JavaScript compares with nothing, is put at the bottom). -/
def JSNum.ext : JSNum → WithBot (WithTop ℚ)
  | JSNum.nan => ⊥
  | JSNum.negInf => ⊥
  | JSNum.fin q => ((q : WithTop ℚ) : WithBot (WithTop ℚ))
  | JSNum.posInf => ⊤

/-- The pair (signal strength, rx+tx sum) of a sample, ordered lexicographically. -/
def Sample.key (s : Sample) : Lex (WithBot (WithTop ℚ) × WithBot (WithTop ℚ)) :=
  toLex (JSNum.ext (JSValue.toNumber s.signal_dbm), JSNum.ext s.rate)

/-- The sample can be ranked: its signal strength is a number other than `NaN` and
its rx+tx sum, as the reducer computes it, is not `NaN`. -/
def Sample.comparable (s : Sample) : Prop :=
  s.signal_dbm.isNumber = true ∧ s.rate ≠ JSNum.nan

instance (s : Sample) : Decidable s.comparable := by
  unfold Sample.comparable
  infer_instance

/-- A sample named `name` that carries only a signal strength: every other field
is missing. -/
def Sample.ofSignal (name : String) (signal : ℚ) : Sample :=
  { ssid := some name, bssid := none, freq_mhz := JSValue.undefined,
    signal_dbm := JSValue.num (JSNum.fin signal),
    rx_mbps := JSValue.undefined, tx_mbps := JSValue.undefined }

/-- A sample named `name` that carries a signal strength and both throughputs. -/
def Sample.ofReadings (name : String) (signal rx tx : ℚ) : Sample :=
  { ssid := some name, bssid := none, freq_mhz := JSValue.undefined,
    signal_dbm := JSValue.num (JSNum.fin signal),
    rx_mbps := JSValue.num (JSNum.fin rx), tx_mbps := JSValue.num (JSNum.fin tx) }

/-! ## The display state, the readout and the render loop -/

/-- The JavaScript negation `-a` on numbers. -/
def JSNum.neg : JSNum → JSNum
  | JSNum.nan => JSNum.nan
  | JSNum.negInf => JSNum.posInf
  | JSNum.fin q => JSNum.fin (-q)
  | JSNum.posInf => JSNum.negInf

/-- The JavaScript difference `a - b` on numbers. -/
def JSNum.sub (a b : JSNum) : JSNum :=
  JSNum.add a (JSNum.neg b)

/-- The JavaScript comparison `a >= b` on numbers: false as soon as one side is `NaN`. -/
def JSNum.ge (a b : JSNum) : Bool :=
  JSNum.le b a

/-- ECMAScript `ToBoolean` on a field value: `undefined`, `null`, `false`, `NaN` and
`0` are falsy. -/
def JSValue.truthy : JSValue → Bool
  | JSValue.undefined => false
  | JSValue.null => false
  | JSValue.bool b => b
  | JSValue.num JSNum.nan => false
  | JSValue.num (JSNum.fin q) => decide (q ≠ 0)
  | JSValue.num _ => true

/-- A piece of a text written to the page: a literal string, the string form of a
number, or the result of `toFixed(digits)` on a number. The decimal expansion of a
number is not modelled: the piece carries the number itself. -/
inductive TextPiece where
  | lit (s : String) : TextPiece
  | num (n : JSNum) : TextPiece
  | fixed (n : JSNum) (digits : ℕ) : TextPiece
deriving DecidableEq

/-- A text written to the page, the concatenation of its pieces. -/
abbrev Text := List TextPiece

/-- The string form of a field value inside a text. -/
def JSValue.toText : JSValue → TextPiece
  | JSValue.undefined => TextPiece.lit "undefined"
  | JSValue.null => TextPiece.lit "null"
  | JSValue.bool true => TextPiece.lit "true"
  | JSValue.bool false => TextPiece.lit "false"
  | JSValue.num n => TextPiece.num n

/-- The object `state` of `app.js`, as a type:
```
const state = { targetQuality: 0, displayQuality: 0, lastSignal: null };
```
-/
structure State where
  targetQuality : JSNum
  displayQuality : JSNum
  lastSignal : Option Sample
deriving DecidableEq

/-- The value of `state` at startup. -/
def state : State :=
  { targetQuality := JSNum.fin 0, displayQuality := JSNum.fin 0, lastSignal := none }

/-- What the page shows through the object `elements` of `app.js`: the text content
of `ssid`, `bssid`, `freq`, `signal` (`signal-db`), `quality`, `rx` and `tx`, the
`strokeDashoffset` of `gaugeFill`, the `transform` of `needle`, and the
`animationDuration` and `opacity` of `pulse`. -/
structure Elements where
  ssid : String
  bssid : String
  freq : Text
  signal : Text
  quality : String
  rx : Text
  tx : Text
  gaugeFillOffset : Text
  needleTransform : Text
  pulseDuration : Text
  pulseOpacity : Text
deriving DecidableEq

/-- The mutable world of the script: `state` and what `elements` shows. -/
structure World where
  state : State
  elements : Elements
deriving DecidableEq

/-- The constant `GAUGE_LENGTH` of `app.js`. -/
def GAUGE_LENGTH : JSNum := JSNum.fin 410

/-- The expression `name || "—"` on an identifier that is a string, `null` or missing:
the empty string is falsy too. -/
def orDash : Option String → String
  | none => "—"
  | some s => if s = "" then "—" else s

/-- The expression ``v ? `${v.toFixed(1)} Mbps` : "—"`` on a throughput. A truthy value
that is not a number has no `toFixed` method: the call throws a `TypeError`, rendered
as `none`. -/
def mbpsText (v : JSValue) : Option Text :=
  if v.truthy then
    match v with
    | JSValue.num n => some [TextPiece.fixed n 1, TextPiece.lit " Mbps"]
    | _ => none
  else some [TextPiece.lit "—"]

/-- The label chain of `updateReadout`:
```
if (quality >= 75) "Strong signal" else if (quality >= 45) "Stable signal"
else if (quality >= 20) "Weak signal" else "Searching for signal"
```
-/
def qualityLabel (quality : JSNum) : String :=
  if JSNum.ge quality (JSNum.fin 75) then "Strong signal"
  else if JSNum.ge quality (JSNum.fin 45) then "Stable signal"
  else if JSNum.ge quality (JSNum.fin 20) then "Weak signal"
  else "Searching for signal"

/-- The function `updateReadout` of `app.js`. The decimal literals `1.2`, `2.8` and
`0.2` are the rationals `6/5`, `14/5` and `1/5`. The result is `Except.error w` when a
`toFixed` call throws, `w` being the world as the assignments before the throw left
it, and `Except.ok w` when the function returns. -/
def updateReadout (w : World) (sample : Sample) : Except World World :=
  let e1 : Elements :=
    { w.elements with
      ssid := orDash sample.ssid
      bssid := orDash sample.bssid
      freq :=
        if sample.freq_mhz.truthy then [sample.freq_mhz.toText, TextPiece.lit " MHz"]
        else [TextPiece.lit "—"]
      signal :=
        if sample.signal_dbm = JSValue.null ∨ sample.signal_dbm = JSValue.undefined then
          [TextPiece.lit "—"]
        else [sample.signal_dbm.toText] }
  match mbpsText sample.rx_mbps with
  | none => Except.error { w with elements := e1 }
  | some rx =>
    let e2 : Elements := { e1 with rx := rx }
    match mbpsText sample.tx_mbps with
    | none => Except.error { w with elements := e2 }
    | some tx =>
      let quality := normalizeSignal sample.signal_dbm
      let pulseSpeed :=
        JSNum.max (JSNum.fin (6 / 5))
          (JSNum.sub (JSNum.fin (14 / 5)) (JSNum.div quality (JSNum.fin 50)))
      Except.ok
        { state := { w.state with targetQuality := quality }
          elements :=
            { e2 with
              tx := tx
              quality := qualityLabel quality
              pulseDuration := [TextPiece.num pulseSpeed, TextPiece.lit "s"]
              pulseOpacity :=
                [TextPiece.num
                  (JSNum.add (JSNum.fin (1 / 5)) (JSNum.div quality (JSNum.fin 140)))] } }

/-- One execution of the function `renderGauge` of `app.js`, a render tick; the
rescheduling through `requestAnimationFrame` is the event `Event.frame`. The decimal
literal `0.08` is the rational `2/25`.
```
state.displayQuality += (state.targetQuality - state.displayQuality) * 0.08;
const quality = state.displayQuality;
const offset = GAUGE_LENGTH - (GAUGE_LENGTH * quality) / 100;
const angle = -90 + (quality / 100) * 180;
```
-/
def renderGauge (w : World) : World :=
  let quality :=
    JSNum.add w.state.displayQuality
      (JSNum.mul (JSNum.sub w.state.targetQuality w.state.displayQuality) (JSNum.fin (2 / 25)))
  let offset :=
    JSNum.sub GAUGE_LENGTH (JSNum.div (JSNum.mul GAUGE_LENGTH quality) (JSNum.fin 100))
  let angle :=
    JSNum.add (JSNum.fin (-90)) (JSNum.mul (JSNum.div quality (JSNum.fin 100)) (JSNum.fin 180))
  { state := { w.state with displayQuality := quality }
    elements :=
      { w.elements with
        gaugeFillOffset := [TextPiece.num offset]
        needleTransform :=
          [TextPiece.lit "translateX(-50%) rotate(", TextPiece.num angle,
            TextPiece.lit "deg)"] } }

/-- A status report: an object whose `interfaces` field is the array of samples,
`none` when the field is `null` or missing. -/
structure Status where
  interfaces : Option (List Sample)
deriving DecidableEq

/-- The function `handleStatus` of `app.js`:
```
const sample = pickBestSample(status.interfaces);
if (!sample) return;
updateReadout(sample);
```
-/
def handleStatus (w : World) (status : Status) : Except World World :=
  match pickBestSample status.interfaces with
  | none => Except.ok w
  | some sample => updateReadout w sample

/-- The world a call leaves behind, whether it returned or threw. -/
def Except.world : Except World World → World
  | Except.ok w => w
  | Except.error w => w

/-- What the runtime delivers to the handlers that `startStream` installs and to the
render loop. A payload is a report object; payloads that parse to anything else are
outside the model. -/
inductive Event where
  /-- The request `fetch("/api/status")` rejects: a network error. -/
  | pullNetworkError : Event
  /-- The response arrives with `res.ok` false. -/
  | pullNotOk : Event
  /-- The response is a success and `res.json()` rejects: an unparseable body. -/
  | pullBadBody : Event
  /-- The response is a success and its body parses to a report. -/
  | pullData (data : Status) : Event
  /-- A push message arrives; `none` when `JSON.parse(event.data)` throws. -/
  | pushMessage (data : Option Status) : Event
  /-- The handler `source.onerror` fires. -/
  | streamError : Event
  /-- The animation frame runs `renderGauge`. -/
  | frame : Event

/-- The handlers of `startStream` and the render loop, one event at a time:
```
fetch("/api/status")
  .then((res) => (res.ok ? res.json() : null))
  .then((data) => { if (data) handleStatus(data); })
  .catch(() => { elements.quality.textContent = "Waiting for data"; });
source.onmessage = (event) => {
  try { const data = JSON.parse(event.data); handleStatus(data); }
  catch (err) { console.warn("Bad stream payload", err); }
};
source.onerror = () => { elements.quality.textContent = "Stream paused"; };
```
-/
def step (w : World) : Event → World
  | Event.pullNetworkError =>
    { w with elements := { w.elements with quality := "Waiting for data" } }
  | Event.pullNotOk => w
  | Event.pullBadBody =>
    { w with elements := { w.elements with quality := "Waiting for data" } }
  | Event.pullData data =>
    match handleStatus w data with
    | Except.ok w1 => w1
    | Except.error w1 =>
      { w1 with elements := { w1.elements with quality := "Waiting for data" } }
  | Event.pushMessage none => w
  | Event.pushMessage (some data) => (handleStatus w data).world
  | Event.streamError =>
    { w with elements := { w.elements with quality := "Stream paused" } }
  | Event.frame => renderGauge w

/-- The world after a sequence of events. -/
def run (w : World) (events : List Event) : World :=
  events.foldl step w

/-- The world at startup, on a page showing `elements`. -/
def startWorld (elements : Elements) : World :=
  { state := state, elements := elements }

/-- A sample's throughputs are what a report may carry: each a number, `null` or
missing. -/
def Sample.throughputsTyped (s : Sample) : Bool :=
  (match s.rx_mbps with | JSValue.bool _ => false | _ => true) &&
    (match s.tx_mbps with | JSValue.bool _ => false | _ => true)

/-- Every sample of the report carries a `signal_dbm` field (which may be `null`). -/
def Status.signalsPresent (status : Status) : Prop :=
  ∀ samples, status.interfaces = some samples →
    ∀ s ∈ samples, s.signal_dbm ≠ JSValue.undefined

/-- Every sample of the report the event delivers, if it delivers one, carries a
`signal_dbm` field. -/
def Event.signalsPresent : Event → Prop
  | Event.pullData data => data.signalsPresent
  | Event.pushMessage (some data) => data.signalsPresent
  | _ => True

/-- A page that shows nothing yet. -/
def Elements.blank : Elements :=
  { ssid := "", bssid := "", freq := [], signal := [], quality := "", rx := [], tx := [],
    gaugeFillOffset := [], needleTransform := [], pulseDuration := [], pulseOpacity := [] }

/-- A sample named `name` in which every measurement field is missing. -/
def Sample.named (name : String) : Sample :=
  { ssid := some name, bssid := none, freq_mhz := JSValue.undefined,
    signal_dbm := JSValue.undefined, rx_mbps := JSValue.undefined,
    tx_mbps := JSValue.undefined }

/-! ## The signal normalizer -/

/-- On a finite number the normalizer clamps to `[-100, -30]`, maps linearly and rounds. -/
theorem normalizeSignal_fin (d : ℚ) :
    normalizeSignal (JSValue.num (JSNum.fin d)) =
      JSNum.fin ⌊(max (-100) (min (-30) d) + 100) / 70 * 100 + 1 / 2⌋ := by
  rcases le_or_lt d (-30) with h30 | h30
  · rcases lt_or_le d (-100) with h100 | h100
    · have : max (-100) (min (-30) d) = -100 := by
        rw [min_eq_right h30, max_eq_left h100.le]
      rw [this]
      rcases eq_or_lt_of_le h30 with h | h
      · subst h; norm_num at h100
      · norm_num [normalizeSignal, JSValue.strictEq, JSValue.isNaN, JSValue.toNumber, JSNum.min,
          JSNum.max, JSNum.lt, JSNum.add, JSNum.div, JSNum.mul, JSNum.round, h, h100, h100.le,
          not_lt.mpr h100.le]
    · have : max (-100) (min (-30) d) = d := by
        rw [min_eq_right h30, max_eq_right h100]
      rw [this]
      rcases eq_or_lt_of_le h30 with h | h
      · subst h
        norm_num [normalizeSignal, JSValue.strictEq, JSValue.isNaN, JSValue.toNumber, JSNum.min,
          JSNum.max, JSNum.lt, JSNum.add, JSNum.div, JSNum.mul, JSNum.round]
      · rcases eq_or_lt_of_le h100 with h' | h'
        · subst h'
          norm_num [normalizeSignal, JSValue.strictEq, JSValue.isNaN, JSValue.toNumber,
            JSNum.min, JSNum.max, JSNum.lt, JSNum.add, JSNum.div, JSNum.mul, JSNum.round]
        · norm_num [normalizeSignal, JSValue.strictEq, JSValue.isNaN, JSValue.toNumber,
            JSNum.min, JSNum.max, JSNum.lt, JSNum.add, JSNum.div, JSNum.mul, JSNum.round, h, h',
            not_lt.mpr h30]
  · have : max (-100) (min (-30) d) = -30 := by
      rw [min_eq_left h30.le]; norm_num
    rw [this]
    norm_num [normalizeSignal, JSValue.strictEq, JSValue.isNaN, JSValue.toNumber, JSNum.min,
      JSNum.max, JSNum.lt, JSNum.add, JSNum.div, JSNum.mul, JSNum.round, h30, not_lt.mpr h30.le]

theorem normalizeSignal_null : normalizeSignal JSValue.null = JSNum.fin 0 := by
  simp [normalizeSignal, JSValue.strictEq]

theorem normalizeSignal_nan : normalizeSignal (JSValue.num JSNum.nan) = JSNum.fin 0 := by
  simp [normalizeSignal, JSValue.strictEq, JSValue.isNaN]

theorem normalizeSignal_negInf : normalizeSignal (JSValue.num JSNum.negInf) = JSNum.fin 0 := by
  norm_num [normalizeSignal, JSValue.strictEq, JSValue.isNaN, JSValue.toNumber, JSNum.min,
    JSNum.max, JSNum.lt, JSNum.add, JSNum.div, JSNum.mul, JSNum.round]

theorem normalizeSignal_posInf : normalizeSignal (JSValue.num JSNum.posInf) = JSNum.fin 100 := by
  norm_num [normalizeSignal, JSValue.strictEq, JSValue.isNaN, JSValue.toNumber, JSNum.min,
    JSNum.max, JSNum.lt, JSNum.add, JSNum.div, JSNum.mul, JSNum.round]

theorem normalizeSignal_bool (b : Bool) :
    normalizeSignal (JSValue.bool b) = JSNum.fin 100 := by
  cases b <;>
  norm_num [normalizeSignal, JSValue.strictEq, JSValue.isNaN, JSValue.toNumber, JSNum.min,
    JSNum.max, JSNum.lt, JSNum.add, JSNum.div, JSNum.mul, JSNum.round]

theorem normalizeSignal_undefined : normalizeSignal JSValue.undefined = JSNum.nan := by
  rfl

/-- The rounded linear map is monotone. -/
theorem floor_linear_mono {x y : ℚ} (h : x ≤ y) :
    ⌊(x + 100) / 70 * 100 + 1 / 2⌋ ≤ ⌊(y + 100) / 70 * 100 + 1 / 2⌋ := by
  apply Int.floor_mono
  linarith

/-- The rounded linear map sends `[-100, -30]` into `[0, 100]`. -/
theorem floor_linear_range {c : ℚ} (h1 : -100 ≤ c) (h2 : c ≤ -30) :
    0 ≤ ⌊(c + 100) / 70 * 100 + 1 / 2⌋ ∧ ⌊(c + 100) / 70 * 100 + 1 / 2⌋ ≤ 100 := by
  constructor
  · apply Int.floor_nonneg.mpr
    linarith
  · have : ⌊(c + 100) / 70 * 100 + 1 / 2⌋ < 101 := by
      rw [Int.floor_lt]
      push_cast
      linarith
    omega

/-- On every value but `undefined` the normalizer returns an integer of `[0, 100]`. -/
theorem normalizeSignal_range_of_ne_undefined (v : JSValue) (hv : v ≠ JSValue.undefined) :
    ∃ q : ℤ, 0 ≤ q ∧ q ≤ 100 ∧ normalizeSignal v = JSNum.fin q := by
  cases v with
  | undefined => exact absurd rfl hv
  | null => exact ⟨0, le_refl _, by norm_num, by simp [normalizeSignal_null]⟩
  | bool b => exact ⟨100, by norm_num, le_refl _, by simp [normalizeSignal_bool]⟩
  | num n =>
    cases n with
    | nan => exact ⟨0, le_refl _, by norm_num, by simp [normalizeSignal_nan]⟩
    | negInf => exact ⟨0, le_refl _, by norm_num, by simp [normalizeSignal_negInf]⟩
    | posInf => exact ⟨100, by norm_num, le_refl _, by simp [normalizeSignal_posInf]⟩
    | fin d =>
      have hr := floor_linear_range (c := max (-100) (min (-30) d)) (le_max_left _ _)
        (max_le (by norm_num) (min_le_left _ _))
      exact ⟨_, hr.1, hr.2, normalizeSignal_fin d⟩

theorem JSNum.le_fin_fin (a b : ℚ) : JSNum.le (JSNum.fin a) (JSNum.fin b) = decide (a ≤ b) := by
  by_cases h : a ≤ b
  · simp [JSNum.le, JSNum.lt, h, not_lt.mpr h]
  · simp [JSNum.le, JSNum.lt, h, not_le.mp h]

/-- C1, as the code runs it at a sample whose `signal_dbm` field is missing: the
normalizer returns `NaN` there, which is no integer of `[0, 100]`. -/
theorem normalizeSignal_undefined_out_of_range :
    normalizeSignal JSValue.undefined = JSNum.nan ∧
      ¬ ∃ q : ℤ, 0 ≤ q ∧ q ≤ 100 ∧ normalizeSignal JSValue.undefined = JSNum.fin q := by
  refine ⟨rfl, ?_⟩
  rintro ⟨q, -, -, hq⟩
  rw [normalizeSignal_undefined] at hq
  exact JSNum.noConfusion hq

/-- C2, as the code runs it: `null` and `NaN` normalize to `0`, but a missing
(`undefined`) signal strength does not: the result there is `NaN`. -/
theorem normalizeSignal_undefined_ne_zero :
    normalizeSignal JSValue.null = JSNum.fin 0 ∧
      normalizeSignal (JSValue.num JSNum.nan) = JSNum.fin 0 ∧
      normalizeSignal JSValue.undefined ≠ JSNum.fin 0 := by
  refine ⟨normalizeSignal_null, normalizeSignal_nan, ?_⟩
  rw [normalizeSignal_undefined]
  exact fun h => JSNum.noConfusion h

/-- C3: every number `d <= -100` (`-Infinity` included) normalizes to `0`, and every
number `d >= -30` (`+Infinity` included) normalizes to `100`. -/
theorem normalizeSignal_clamps (d : JSNum) :
    (JSNum.le d (JSNum.fin (-100)) = true → normalizeSignal (JSValue.num d) = JSNum.fin 0) ∧
      (JSNum.le (JSNum.fin (-30)) d = true →
        normalizeSignal (JSValue.num d) = JSNum.fin 100) := by
  cases d with
  | nan => simp [JSNum.le]
  | negInf => simp [JSNum.le, JSNum.lt, normalizeSignal_negInf]
  | posInf => simp [JSNum.le, JSNum.lt, normalizeSignal_posInf]
  | fin q =>
    rw [JSNum.le_fin_fin, JSNum.le_fin_fin, normalizeSignal_fin]
    constructor
    · intro h
      have h : q ≤ -100 := by simpa using h
      rw [min_eq_right (by linarith), max_eq_left h]
      norm_num
    · intro h
      have h : -30 ≤ q := by simpa using h
      rw [min_eq_left h]
      norm_num

/-- C3 at `-120`, `-Infinity`, `-10` and `+Infinity`. -/
theorem normalizeSignal_clamps_witness :
    normalizeSignal (JSValue.num (JSNum.fin (-120))) = JSNum.fin 0 ∧
      normalizeSignal (JSValue.num JSNum.negInf) = JSNum.fin 0 ∧
      normalizeSignal (JSValue.num (JSNum.fin (-10))) = JSNum.fin 100 ∧
      normalizeSignal (JSValue.num JSNum.posInf) = JSNum.fin 100 :=
  ⟨(normalizeSignal_clamps _).1 (by norm_num [JSNum.le, JSNum.lt]),
    (normalizeSignal_clamps _).1 (by simp [JSNum.le, JSNum.lt]),
    (normalizeSignal_clamps _).2 (by norm_num [JSNum.le, JSNum.lt]),
    (normalizeSignal_clamps _).2 (by simp [JSNum.le, JSNum.lt])⟩

/-- C4: the normalizer is monotonic non-decreasing on numbers: `a <= b` gives
`normalizeSignal(a) <= normalizeSignal(b)`, both comparisons being JavaScript's. -/
theorem normalizeSignal_monotone (a b : JSNum) (h : JSNum.le a b = true) :
    JSNum.le (normalizeSignal (JSValue.num a)) (normalizeSignal (JSValue.num b)) = true := by
  have hna : a ≠ JSNum.nan := by rintro rfl; simp [JSNum.le] at h
  have hnb : b ≠ JSNum.nan := by rintro rfl; cases a <;> simp [JSNum.le] at h
  obtain ⟨qa, ha0, ha100, hqa⟩ :=
    normalizeSignal_range_of_ne_undefined (JSValue.num a) (fun h => JSValue.noConfusion h)
  obtain ⟨qb, hb0, hb100, hqb⟩ :=
    normalizeSignal_range_of_ne_undefined (JSValue.num b) (fun h => JSValue.noConfusion h)
  cases a with
  | nan => exact absurd rfl hna
  | negInf =>
    rw [normalizeSignal_negInf, hqb, JSNum.le_fin_fin]
    simpa using hb0
  | posInf =>
    cases b with
    | posInf => rw [normalizeSignal_posInf, JSNum.le_fin_fin]; simp
    | nan => exact absurd rfl hnb
    | negInf => simp [JSNum.le, JSNum.lt] at h
    | fin y => simp [JSNum.le, JSNum.lt] at h
  | fin x =>
    cases b with
    | nan => exact absurd rfl hnb
    | negInf => simp [JSNum.le, JSNum.lt] at h
    | posInf =>
      rw [normalizeSignal_posInf, hqa, JSNum.le_fin_fin]
      have : (qa : ℚ) ≤ 100 := by exact_mod_cast ha100
      simpa using this
    | fin y =>
      rw [JSNum.le_fin_fin] at h
      have hxy : x ≤ y := by simpa using h
      rw [normalizeSignal_fin, normalizeSignal_fin, JSNum.le_fin_fin]
      have := floor_linear_mono (x := max (-100) (min (-30) x)) (y := max (-100) (min (-30) y))
        (max_le_max (le_refl _) (min_le_min (le_refl _) hxy))
      have : ((⌊(max (-100) (min (-30) x) + 100) / 70 * 100 + 1 / 2⌋ : ℤ) : ℚ) ≤
          ((⌊(max (-100) (min (-30) y) + 100) / 70 * 100 + 1 / 2⌋ : ℤ) : ℚ) := by
        exact_mod_cast this
      simpa using this

/-- C4 at `-80 <= -40`: the qualities are `29` and `86`. -/
theorem normalizeSignal_monotone_witness :
    JSNum.le (JSNum.fin (-80)) (JSNum.fin (-40)) = true ∧
      JSNum.le (normalizeSignal (JSValue.num (JSNum.fin (-80))))
        (normalizeSignal (JSValue.num (JSNum.fin (-40)))) = true :=
  ⟨by norm_num [JSNum.le, JSNum.lt],
    normalizeSignal_monotone _ _ (by norm_num [JSNum.le, JSNum.lt])⟩

/-- C5: on an integer `d` of `[-100, -30]` the normalizer returns
`round((d + 100) / 70 * 100)`, which lies strictly within `1/2` of `10 * (d + 100) / 7`
(it is the nearest integer and no half-way case occurs); and it sends `-65` to `50`,
`-100` to `0` and `-30` to `100`. -/
theorem normalizeSignal_linear (d : ℤ) (h1 : -100 ≤ d) (h2 : d ≤ -30) :
    normalizeSignal (JSValue.num (JSNum.fin d)) =
        JSNum.fin ((round (((d : ℚ) + 100) / 70 * 100) : ℤ) : ℚ) ∧
      |((round (((d : ℚ) + 100) / 70 * 100) : ℤ) : ℚ) - 10 * ((d : ℚ) + 100) / 7| < 1 / 2 ∧
      normalizeSignal (JSValue.num (JSNum.fin (-65))) = JSNum.fin 50 ∧
      normalizeSignal (JSValue.num (JSNum.fin (-100))) = JSNum.fin 0 ∧
      normalizeSignal (JSValue.num (JSNum.fin (-30))) = JSNum.fin 100 := by
  refine ⟨?_, ?_, ?_, ?_, ?_⟩
  · have h1q : (-100 : ℚ) ≤ d := by exact_mod_cast h1
    have h2q : (d : ℚ) ≤ -30 := by exact_mod_cast h2
    rw [normalizeSignal_fin, min_eq_right h2q, max_eq_right h1q, round_eq]
  · rw [round_eq]
    interval_cases d <;> norm_num [abs_lt]
  · rw [normalizeSignal_fin]; norm_num
  · rw [normalizeSignal_fin]; norm_num
  · rw [normalizeSignal_fin]; norm_num

/-- C5 at `d = -64`: the quality is `51`, the integer nearest to `360 / 7`. -/
theorem normalizeSignal_linear_witness :
    (-100 : ℤ) ≤ -64 ∧ (-64 : ℤ) ≤ -30 ∧
      normalizeSignal (JSValue.num (JSNum.fin (-64))) = JSNum.fin 51 := by
  refine ⟨by decide, by decide, ?_⟩
  have h := (normalizeSignal_linear (-64) (by decide) (by decide)).1
  norm_num [round_eq] at h
  exact h

/-! ## The order of JavaScript numbers -/

theorem JSNum.coe_lt_top (q : ℚ) : ((q : WithTop ℚ) : WithBot (WithTop ℚ)) < ⊤ := by
  rw [← WithBot.coe_top, WithBot.coe_lt_coe]
  exact WithTop.coe_lt_top q

theorem JSNum.coe_ne_top (q : ℚ) : ((q : WithTop ℚ) : WithBot (WithTop ℚ)) ≠ ⊤ :=
  (JSNum.coe_lt_top q).ne

theorem JSNum.lt_iff_ext (a b : JSNum) (ha : a ≠ JSNum.nan) (hb : b ≠ JSNum.nan) :
    JSNum.lt a b = true ↔ JSNum.ext a < JSNum.ext b := by
  cases a <;> cases b <;> simp_all [JSNum.lt, JSNum.ext, JSNum.coe_lt_top, JSNum.coe_ne_top]

theorem JSNum.eq_iff_ext (a b : JSNum) (ha : a ≠ JSNum.nan) (hb : b ≠ JSNum.nan) :
    a = b ↔ JSNum.ext a = JSNum.ext b := by
  cases a <;> cases b <;>
    simp_all [JSNum.ext, JSNum.coe_ne_top, (JSNum.coe_ne_top _).symm]

theorem JSNum.strictEq_iff (a b : JSNum) (ha : a ≠ JSNum.nan) (hb : b ≠ JSNum.nan) :
    JSNum.strictEq a b = true ↔ a = b := by
  cases a <;> cases b <;> simp_all [JSNum.strictEq]

theorem JSNum.le_iff_ext (a b : JSNum) (ha : a ≠ JSNum.nan) (hb : b ≠ JSNum.nan) :
    JSNum.le a b = true ↔ JSNum.ext a ≤ JSNum.ext b := by
  have h := JSNum.lt_iff_ext b a hb ha
  have : JSNum.le a b = !(JSNum.lt b a) := by cases a <;> cases b <;> simp_all [JSNum.le]
  rw [this, ← not_lt, ← h]
  simp

theorem JSValue.isNumber_iff (v : JSValue) :
    v.isNumber = true ↔ ∃ n, v = JSValue.num n ∧ n ≠ JSNum.nan := by
  cases v with
  | num n => cases n <;> simp [JSValue.isNumber]
  | _ => simp [JSValue.isNumber]

/-! ## Rounding to binary64 -/

/-- An integer rounds to itself. -/
theorem roundHalfEven_intCast (k : ℤ) : roundHalfEven (k : ℚ) = k := by
  simp [roundHalfEven]

/-- The binary exponent of a magnitude between two consecutive powers of two. -/
theorem Int.log_two_eq_of_bounds (m : ℚ) (e : ℤ) (hlo : (2 : ℚ) ^ e ≤ m)
    (hhi : m < (2 : ℚ) ^ (e + 1)) : Int.log 2 m = e := by
  have hm : 0 < m := lt_of_lt_of_le (by positivity) hlo
  have h1 : e ≤ Int.log 2 m :=
    (Int.zpow_le_iff_le_log (by norm_num) hm).mp (by exact_mod_cast hlo)
  have h2 : Int.log 2 m < e + 1 :=
    (Int.lt_zpow_iff_log_lt (by norm_num) hm).mp (by exact_mod_cast hhi)
  omega

/-- A positive integer up to `2 ^ 53` is a binary64 number: rounding leaves it alone. -/
theorem roundMagnitude64_natCast (n : ℕ) (h0 : 0 < n) (h : n ≤ 2 ^ 53) :
    roundMagnitude64 (n : ℚ) = n := by
  have hlog : Int.log 2 (n : ℚ) = (Nat.log 2 n : ℤ) := Int.log_natCast 2 n
  have hlo : 2 ^ Nat.log 2 n ≤ n := Nat.pow_log_le_self 2 h0.ne'
  have hl53 : Nat.log 2 n ≤ 53 := by
    have : 2 ^ Nat.log 2 n ≤ 2 ^ 53 := le_trans hlo h
    exact (Nat.pow_le_pow_iff_right (by norm_num)).mp this
  have hexp : exponent64 (n : ℚ) = (Nat.log 2 n : ℤ) := by
    rw [exponent64, hlog]
    omega
  rw [roundMagnitude64, hexp]
  rcases Nat.lt_or_ge (Nat.log 2 n) 53 with hlt | hge
  · obtain ⟨d, hd⟩ : ∃ d : ℕ, Nat.log 2 n + d = 52 := ⟨52 - Nat.log 2 n, by omega⟩
    have hz : ((Nat.log 2 n : ℤ) - 52) = -(d : ℤ) := by omega
    have hpow : (2 : ℚ) ^ (-(d : ℤ)) = ((2 : ℚ) ^ d)⁻¹ := by
      rw [zpow_neg, zpow_natCast]
    have hpos : (0 : ℚ) < 2 ^ d := by positivity
    have hsig : (n : ℚ) / ((2 : ℚ) ^ d)⁻¹ = (((n * 2 ^ d : ℕ) : ℤ) : ℚ) := by
      push_cast
      field_simp
    rw [hz, hpow, hsig, roundHalfEven_intCast]
    push_cast
    field_simp
  · have hl : Nat.log 2 n = 53 := le_antisymm hl53 hge
    have hn : n = 2 ^ 53 := by
      rw [hl] at hlo
      exact le_antisymm h hlo
    rw [hl, hn]
    have hsig : ((2 ^ 53 : ℕ) : ℚ) / 2 ^ (((53 : ℕ) : ℤ) - 52) = (((2 ^ 52 : ℕ) : ℤ) : ℚ) := by
      norm_num
    rw [hsig, roundHalfEven_intCast]
    norm_num

/-- A natural number up to `2 ^ 53` is a binary64 number. -/
theorem JSNum.ofRat64_natCast (n : ℕ) (h : n ≤ 2 ^ 53) :
    JSNum.ofRat64 (n : ℚ) = JSNum.fin n := by
  rcases Nat.eq_zero_or_pos n with h0 | h0
  · subst h0
    simp [JSNum.ofRat64]
  · have hq : (0 : ℚ) < n := by exact_mod_cast h0
    have hbig : ¬ (2 : ℚ) ^ (1024 : ℕ) ≤ (n : ℚ) := by
      have h1 : (n : ℚ) ≤ 2 ^ 53 := by exact_mod_cast h
      have h2 : (2 : ℚ) ^ 53 < 2 ^ (1024 : ℕ) := by norm_num
      exact not_le.mpr (lt_of_le_of_lt h1 h2)
    rw [JSNum.ofRat64, if_neg hq.ne', abs_of_pos hq, roundMagnitude64_natCast n h0 h,
      if_neg hbig, if_pos hq]

/-- The sum `2 ^ 53 + 1` is half-way between two binary64 numbers and rounds to the
even one, `2 ^ 53`. -/
theorem JSNum.ofRat64_two_pow_53_add_one :
    JSNum.ofRat64 (9007199254740992 + 1) = JSNum.fin 9007199254740992 := by
  have hlog : Int.log 2 (9007199254740993 : ℚ) = 53 :=
    Int.log_two_eq_of_bounds _ 53 (by norm_num) (by norm_num)
  have hmag : roundMagnitude64 (9007199254740993 : ℚ) = 9007199254740992 := by
    rw [roundMagnitude64, exponent64, hlog]
    norm_num [roundHalfEven]
  have hq : (0 : ℚ) < 9007199254740993 := by norm_num
  have he : (9007199254740992 + 1 : ℚ) = 9007199254740993 := by norm_num
  rw [he, JSNum.ofRat64, if_neg hq.ne', abs_of_pos hq, hmag, if_neg (by norm_num), if_pos hq]

/-- Rounding a rational never gives `NaN`. -/
theorem JSNum.ofRat64_ne_nan (q : ℚ) : JSNum.ofRat64 q ≠ JSNum.nan := by
  unfold JSNum.ofRat64
  split_ifs <;> exact fun h => JSNum.noConfusion h

/-- Rounding gives `NaN` only on `NaN`. -/
theorem JSNum.round64_eq_nan_iff (a : JSNum) : JSNum.round64 a = JSNum.nan ↔ a = JSNum.nan := by
  cases a with
  | fin q => simp [JSNum.round64, JSNum.ofRat64_ne_nan]
  | _ => simp [JSNum.round64]

/-! ## The sample selector -/

/-- The reducer returns one of its two arguments. -/
theorem pickBestSample.reducer_some (b x : Sample) :
    pickBestSample.reducer (some b) x = some x ∨ pickBestSample.reducer (some b) x = some b := by
  simp only [pickBestSample.reducer]
  split_ifs <;> simp

/-- On two samples that can be ranked the reducer keeps the accumulator unless the
candidate has a strictly greater (signal strength, rx+tx sum) pair. -/
theorem pickBestSample.reducer_of_comparable (b x : Sample) (hb : b.comparable)
    (hx : x.comparable) :
    pickBestSample.reducer (some b) x = if b.key < x.key then some x else some b := by
  obtain ⟨nb, hnb, hnb'⟩ := (JSValue.isNumber_iff _).mp hb.1
  obtain ⟨nx, hnx, hnx'⟩ := (JSValue.isNumber_iff _).mp hx.1
  have hlt : b.key < x.key ↔
      JSNum.ext nb < JSNum.ext nx ∨ JSNum.ext nb = JSNum.ext nx ∧
        JSNum.ext b.rate < JSNum.ext x.rate := by
    simp only [Sample.key, Prod.Lex.lt_iff, hnb, hnx, JSValue.toNumber]
  simp only [pickBestSample.reducer, JSValue.gt, hnb, hnx, JSValue.toNumber, JSValue.strictEq]
  have h1 := JSNum.lt_iff_ext nb nx hnb' hnx'
  have h2 := JSNum.strictEq_iff nx nb hnx' hnb'
  have h3 := JSNum.eq_iff_ext nx nb hnx' hnb'
  have h4 := JSNum.lt_iff_ext b.rate x.rate hb.2 hx.2
  by_cases c1 : JSNum.lt nb nx = true
  · rw [if_pos c1, if_pos (hlt.mpr (Or.inl (h1.mp c1)))]
  · rw [if_neg c1]
    by_cases c2 : JSNum.strictEq nx nb = true
    · rw [if_pos c2]
      have he : JSNum.ext nb = JSNum.ext nx := (h3.mp (h2.mp c2)).symm
      by_cases c3 : JSNum.lt b.rate x.rate = true
      · have : JSNum.lt (JSValue.add b.rx_mbps b.tx_mbps)
            (JSValue.add x.rx_mbps x.tx_mbps) = true := c3
        simp only [this, if_true]
        rw [if_pos (hlt.mpr (Or.inr ⟨he, h4.mp c3⟩))]
      · have : ¬ JSNum.lt (JSValue.add b.rx_mbps b.tx_mbps)
            (JSValue.add x.rx_mbps x.tx_mbps) = true := c3
        simp only [this, if_false]
        have hn : ¬ b.key < x.key := by
          rintro hk
          rcases hlt.mp hk with h | ⟨-, h⟩
          · exact c1 (h1.mpr h)
          · exact c3 (h4.mpr h)
        rw [if_neg hn]
        simp
    · have hn : ¬ b.key < x.key := by
        rintro hk
        rcases hlt.mp hk with h | ⟨h, -⟩
        · exact c1 (h1.mpr h)
        · exact c2 (h2.mpr (h3.mpr h.symm))
      rw [if_neg c2, if_neg hn]

/-- Folding the reducer over samples that can be ranked returns the earliest sample
whose (signal strength, rx+tx sum) pair is maximal: every sample before it has a
strictly smaller pair and no sample after it has a greater one. -/
theorem pickBestSample.foldl_comparable (b : Sample) (l : List Sample)
    (h : ∀ s ∈ b :: l, s.comparable) :
    ∃ pre r post, b :: l = pre ++ r :: post ∧
      l.foldl pickBestSample.reducer (some b) = some r ∧
      (∀ s ∈ pre, s.key < r.key) ∧ (∀ s ∈ post, s.key ≤ r.key) := by
  induction l using List.reverseRecOn with
  | nil => exact ⟨[], b, [], rfl, rfl, by simp, by simp⟩
  | append_singleton l x ih =>
    have hl : ∀ s ∈ b :: l, s.comparable := by
      intro s hs
      apply h
      rcases List.mem_cons.mp hs with hs | hs
      · simp [hs]
      · simp [hs]
    have hx : x.comparable := h x (by simp)
    obtain ⟨pre, r, post, hsplit, hfold, hpre, hpost⟩ := ih hl
    have hr : r.comparable := hl r (by rw [hsplit]; simp)
    rw [List.foldl_append, hfold, List.foldl_cons, List.foldl_nil,
      pickBestSample.reducer_of_comparable r x hr hx]
    by_cases hk : r.key < x.key
    · refine ⟨pre ++ r :: post, x, [], ?_, by rw [if_pos hk], ?_, by simp⟩
      · rw [← List.cons_append, hsplit]
      · intro s hs
        rcases List.mem_append.mp hs with hs | hs
        · exact lt_trans (hpre s hs) hk
        · rcases List.mem_cons.mp hs with hs | hs
          · rw [hs]; exact hk
          · exact lt_of_le_of_lt (hpost s hs) hk
    · refine ⟨pre, r, post ++ [x], ?_, by rw [if_neg hk], hpre, ?_⟩
      · rw [← List.cons_append, hsplit]; simp
      · intro s hs
        rcases List.mem_append.mp hs with hs | hs
        · exact hpost s hs
        · rw [List.mem_singleton.mp hs]; exact not_lt.mp hk

/-- On a non-empty list the selector folds the reducer from the first sample. -/
theorem pickBestSample_cons (b : Sample) (l : List Sample) :
    pickBestSample (some (b :: l)) = l.foldl pickBestSample.reducer (some b) := by
  simp [pickBestSample, pickBestSample.reducer]

/-- Values that are strictly equal are not ordered by `<` either way. -/
theorem JSValue.not_lt_of_strictEq (v w : JSValue) (h : JSValue.strictEq v w = true) :
    JSNum.lt (JSValue.toNumber v) (JSValue.toNumber w) = false := by
  cases v with
  | undefined => simp [JSValue.toNumber, JSNum.lt]
  | null => cases w <;> simp_all [JSValue.strictEq, JSValue.toNumber, JSNum.lt]
  | bool a =>
    cases w with
    | bool b =>
      have : a = b := by simpa [JSValue.strictEq] using h
      subst this
      cases a <;> simp [JSValue.toNumber, JSNum.lt]
    | _ => simp [JSValue.strictEq] at h
  | num a =>
    cases w with
    | num b =>
      cases a <;> cases b <;> simp_all [JSValue.strictEq, JSNum.strictEq, JSValue.toNumber, JSNum.lt]
    | _ => simp [JSValue.strictEq] at h

/-- The comparison `<` of numbers is asymmetric. -/
theorem JSNum.lt_asymm (a b : JSNum) (h : JSNum.lt a b = true) : JSNum.lt b a = false := by
  cases a <;> cases b <;> simp_all [JSNum.lt]
  exact le_of_lt h

/-- The reducer keeps an accumulator whose signal strength is strictly greater than
the candidate's. -/
theorem pickBestSample.reducer_keep (B x : Sample)
    (h : x = B ∨ JSValue.gt B.signal_dbm x.signal_dbm = true) :
    pickBestSample.reducer (some B) x = some B := by
  rcases h with h | h
  · subst h
    rcases pickBestSample.reducer_some x x with h | h <;> exact h
  · have h1 : JSValue.gt x.signal_dbm B.signal_dbm = false := JSNum.lt_asymm _ _ h
    have h2 : JSValue.strictEq x.signal_dbm B.signal_dbm = false := by
      by_contra hc
      have := JSValue.not_lt_of_strictEq _ _ (by simpa using hc)
      rw [JSValue.gt] at h
      rw [this] at h
      exact Bool.noConfusion h
    simp [pickBestSample.reducer, h1, h2]

/-- The reducer takes a candidate whose signal strength is strictly greater than the
accumulator's. -/
theorem pickBestSample.reducer_take (acc : Option Sample) (B : Sample)
    (h : acc = none ∨ ∃ s, acc = some s ∧ (s = B ∨ JSValue.gt B.signal_dbm s.signal_dbm = true)) :
    pickBestSample.reducer acc B = some B := by
  rcases h with h | ⟨s, h, hs⟩
  · subst h; rfl
  · subst h
    rcases hs with hs | hs
    · subst hs
      rcases pickBestSample.reducer_some s s with h | h <;> exact h
    · simp [pickBestSample.reducer, hs]

/-- Once the accumulator is the sample of strictly greatest signal strength it stays so. -/
theorem pickBestSample.foldl_keep (B : Sample) (l : List Sample)
    (hmax : ∀ s ∈ l, s ≠ B → JSValue.gt B.signal_dbm s.signal_dbm = true) :
    l.foldl pickBestSample.reducer (some B) = some B := by
  induction l with
  | nil => rfl
  | cons x xs ih =>
    have hx : x = B ∨ JSValue.gt B.signal_dbm x.signal_dbm = true := by
      by_cases hxB : x = B
      · exact Or.inl hxB
      · exact Or.inr (hmax x (by simp) hxB)
    rw [List.foldl_cons, pickBestSample.reducer_keep B x hx]
    exact ih (fun s hs => hmax s (List.mem_cons_of_mem _ hs))

/-- Folding the reducer over a list that holds the sample of strictly greatest signal
strength ends on that sample. -/
theorem pickBestSample.foldl_strict_max (B : Sample) (l : List Sample) (acc : Option Sample)
    (hB : B ∈ l)
    (hmax : ∀ s ∈ l, s ≠ B → JSValue.gt B.signal_dbm s.signal_dbm = true)
    (hacc : acc = none ∨
      ∃ s, acc = some s ∧ (s = B ∨ JSValue.gt B.signal_dbm s.signal_dbm = true)) :
    l.foldl pickBestSample.reducer acc = some B := by
  induction l generalizing acc with
  | nil => simp at hB
  | cons x xs ih =>
    rw [List.foldl_cons]
    by_cases hxB : x = B
    · subst hxB
      rw [pickBestSample.reducer_take acc x hacc]
      exact pickBestSample.foldl_keep x xs (fun s hs => hmax s (List.mem_cons_of_mem _ hs))
    · have hBxs : B ∈ xs := by
        rcases List.mem_cons.mp hB with h | h
        · exact absurd h.symm hxB
        · exact h
      have hx : JSValue.gt B.signal_dbm x.signal_dbm = true := hmax x (by simp) hxB
      apply ih _ hBxs (fun s hs => hmax s (List.mem_cons_of_mem _ hs))
      right
      rcases hacc with h | ⟨s, h, hs⟩
      · subst h
        exact ⟨x, rfl, Or.inr hx⟩
      · subst h
        rcases pickBestSample.reducer_some s x with h | h
        · exact ⟨x, h, Or.inr hx⟩
        · exact ⟨s, h, hs⟩

/-- C6: when a sample `B` of the list has a signal strength strictly greater than every
other sample's, the selector returns `B` on every ordering of the list; so with `A` at
`-70` and `B` at `-50`, both `[A, B]` and `[B, A]` give `B`. -/
theorem pickBestSample_order_independent (l l' : List Sample) (B : Sample) (hB : B ∈ l)
    (hmax : ∀ s ∈ l, s ≠ B → JSValue.gt B.signal_dbm s.signal_dbm = true)
    (hperm : l'.Perm l) :
    pickBestSample (some l') = some B ∧
      pickBestSample (some [Sample.ofSignal "A" (-70), Sample.ofSignal "B" (-50)]) =
        some (Sample.ofSignal "B" (-50)) ∧
      pickBestSample (some [Sample.ofSignal "B" (-50), Sample.ofSignal "A" (-70)]) =
        some (Sample.ofSignal "B" (-50)) := by
  refine ⟨?_, ?_, ?_⟩
  · have hB' : B ∈ l' := hperm.mem_iff.mpr hB
    have hlen : l'.length ≠ 0 := by
      intro h
      rw [List.length_eq_zero] at h
      rw [h] at hB'
      simp at hB'
    simp only [pickBestSample, hlen, if_false]
    exact pickBestSample.foldl_strict_max B l' none hB'
      (fun s hs => hmax s (hperm.mem_iff.mp hs)) (Or.inl rfl)
  · norm_num [pickBestSample, pickBestSample.reducer, Sample.ofSignal, JSValue.gt,
      JSValue.toNumber, JSNum.lt]
  · norm_num [pickBestSample, pickBestSample.reducer, Sample.ofSignal, JSValue.gt,
      JSValue.toNumber, JSNum.lt, JSValue.strictEq, JSNum.strictEq]

/-- C10: the selector returns `null` on a missing list and on the empty list, and
returns `s` on the one-element list `[s]`. -/
theorem pickBestSample_empty_single :
    pickBestSample none = none ∧ pickBestSample (some []) = none ∧
      ∀ s : Sample, pickBestSample (some [s]) = some s := by
  refine ⟨rfl, rfl, fun s => ?_⟩
  simp [pickBestSample, pickBestSample.reducer]

/-- C6 at the lists `[A, B]` and `[B, A]` of the specification. -/
theorem pickBestSample_order_independent_witness :
    Sample.ofSignal "B" (-50) ∈ [Sample.ofSignal "A" (-70), Sample.ofSignal "B" (-50)] ∧
      [Sample.ofSignal "B" (-50), Sample.ofSignal "A" (-70)].Perm
        [Sample.ofSignal "A" (-70), Sample.ofSignal "B" (-50)] ∧
      pickBestSample (some [Sample.ofSignal "B" (-50), Sample.ofSignal "A" (-70)]) =
        some (Sample.ofSignal "B" (-50)) :=
  ⟨by simp, List.Perm.swap _ _ _,
    (pickBestSample_order_independent
      [Sample.ofSignal "A" (-70), Sample.ofSignal "B" (-50)]
      [Sample.ofSignal "B" (-50), Sample.ofSignal "A" (-70)] (Sample.ofSignal "B" (-50))
      (by simp)
      (by
        intro s hs hne
        rcases List.mem_cons.mp hs with h | h
        · subst h
          norm_num [Sample.ofSignal, JSValue.gt, JSValue.toNumber, JSNum.lt]
        · exact absurd (List.mem_singleton.mp h) hne)
      (List.Perm.swap _ _ _)).1⟩

/-- A finite or `null` throughput converts to a finite number, the one the
specification reads. -/
theorem JSValue.toNumber_of_finiteOrNull (v : JSValue) (h : v.isFiniteOrNull = true) :
    ∃ q : ℚ, JSValue.toNumber v = JSNum.fin q ∧ throughputOrZero v = JSNum.fin q := by
  cases v with
  | undefined => simp [JSValue.isFiniteOrNull] at h
  | bool b => simp [JSValue.isFiniteOrNull] at h
  | null => exact ⟨0, rfl, rfl⟩
  | num n =>
    cases n with
    | fin q => exact ⟨q, rfl, rfl⟩
    | _ => simp [JSValue.isFiniteOrNull] at h

/-- A sample with a numeric signal strength and finite or `null` throughputs can be
ranked, and its rx+tx sum is the rounded sum the specification's reading gives. -/
theorem Sample.comparable_of_finiteOrNull (s : Sample) (h1 : s.signal_dbm.isNumber = true)
    (h2 : s.rx_mbps.isFiniteOrNull = true) (h3 : s.tx_mbps.isFiniteOrNull = true) :
    s.comparable ∧ s.specRate64 = s.rate := by
  obtain ⟨a, ha, ha'⟩ := JSValue.toNumber_of_finiteOrNull _ h2
  obtain ⟨b, hb, hb'⟩ := JSValue.toNumber_of_finiteOrNull _ h3
  have hrate : s.rate = JSNum.ofRat64 (a + b) := by
    simp only [Sample.rate, JSValue.add, JSNum.add64, ha, hb, JSNum.add, JSNum.round64]
  have hspec : s.specRate64 = JSNum.ofRat64 (a + b) := by
    simp only [Sample.specRate64, Sample.specRate, ha', hb', JSNum.add, JSNum.round64]
  refine ⟨⟨h1, ?_⟩, by rw [hrate, hspec]⟩
  rw [hrate]
  exact JSNum.ofRat64_ne_nan _

/-- A finite number is a finite number or `null`. -/
theorem JSValue.isFiniteOrNull_of_isFiniteNumber (v : JSValue)
    (h : v.isFiniteNumber = true) : v.isFiniteOrNull = true := by
  cases v with
  | num n => cases n <;> simp_all [JSValue.isFiniteNumber, JSValue.isFiniteOrNull]
  | _ => simp [JSValue.isFiniteNumber] at h

/-- What a smaller-or-equal pair says in JavaScript's comparisons: the signal strength
is `<=`, and on strictly equal signal strengths the rx+tx sum is `<=`. -/
theorem Sample.le_of_key_le (s r : Sample) (hs : s.comparable) (hr : r.comparable)
    (h : s.key ≤ r.key) :
    JSNum.le (JSValue.toNumber s.signal_dbm) (JSValue.toNumber r.signal_dbm) = true ∧
      (JSValue.strictEq s.signal_dbm r.signal_dbm = true → JSNum.le s.rate r.rate = true) := by
  obtain ⟨ns, hns, hns'⟩ := (JSValue.isNumber_iff _).mp hs.1
  obtain ⟨nr, hnr, hnr'⟩ := (JSValue.isNumber_iff _).mp hr.1
  have hk : JSNum.ext ns < JSNum.ext nr ∨
      JSNum.ext ns = JSNum.ext nr ∧ JSNum.ext s.rate ≤ JSNum.ext r.rate := by
    simpa only [Sample.key, Prod.Lex.le_iff, hns, hnr, JSValue.toNumber] using h
  simp only [hns, hnr, JSValue.toNumber, JSValue.strictEq]
  constructor
  · rw [JSNum.le_iff_ext ns nr hns' hnr']
    rcases hk with h | ⟨h, -⟩
    · exact h.le
    · exact h.le
  · intro he
    have he : ns = nr := (JSNum.strictEq_iff ns nr hns' hnr').mp he
    rw [JSNum.le_iff_ext _ _ hs.2 hr.2]
    rcases hk with h | ⟨-, h⟩
    · rw [he] at h
      exact absurd h (lt_irrefl _)
    · exact h

/-- What a strictly smaller pair says in JavaScript's comparisons: the two samples do
not have both strictly equal signal strengths and strictly equal rx+tx sums. -/
theorem Sample.ne_of_key_lt (s r : Sample) (hs : s.comparable) (hr : r.comparable)
    (h : s.key < r.key) :
    ¬ (JSValue.strictEq s.signal_dbm r.signal_dbm = true ∧
      JSNum.strictEq s.rate r.rate = true) := by
  obtain ⟨ns, hns, hns'⟩ := (JSValue.isNumber_iff _).mp hs.1
  obtain ⟨nr, hnr, hnr'⟩ := (JSValue.isNumber_iff _).mp hr.1
  rintro ⟨h1, h2⟩
  simp only [hns, hnr, JSValue.strictEq] at h1
  have e1 : ns = nr := (JSNum.strictEq_iff ns nr hns' hnr').mp h1
  have e2 : s.rate = r.rate := (JSNum.strictEq_iff _ _ hs.2 hr.2).mp h2
  have : s.key = r.key := by
    simp only [Sample.key, hns, hnr, JSValue.toNumber, e1, e2]
  rw [this] at h
  exact lt_irrefl _ h

/-- On a non-empty list of samples that can be ranked, the selector returns a sample of
the list that splits it so that no sample has a greater (signal strength, rx+tx sum)
pair and no sample before it has an equal one. -/
theorem pickBestSample_earliest_max (l : List Sample) (hne : l ≠ [])
    (h : ∀ s ∈ l, s.comparable) :
    ∃ pre r post, l = pre ++ r :: post ∧ pickBestSample (some l) = some r ∧
      (∀ s ∈ l,
        JSNum.le (JSValue.toNumber s.signal_dbm) (JSValue.toNumber r.signal_dbm) = true ∧
        (JSValue.strictEq s.signal_dbm r.signal_dbm = true →
          JSNum.le s.rate r.rate = true)) ∧
      (∀ s ∈ pre, ¬ (JSValue.strictEq s.signal_dbm r.signal_dbm = true ∧
        JSNum.strictEq s.rate r.rate = true)) := by
  cases l with
  | nil => exact absurd rfl hne
  | cons b l =>
    obtain ⟨pre, r, post, hsplit, hfold, hpre, hpost⟩ := pickBestSample.foldl_comparable b l h
    have hr : r.comparable := h r (by rw [hsplit]; simp)
    refine ⟨pre, r, post, hsplit, by rw [pickBestSample_cons, hfold], ?_, ?_⟩
    · intro s hs
      have hsc := h s hs
      apply Sample.le_of_key_le s r hsc hr
      rw [hsplit] at hs
      rcases List.mem_append.mp hs with hs | hs
      · exact (hpre s hs).le
      · rcases List.mem_cons.mp hs with hs | hs
        · rw [hs]
        · exact hpost s hs
    · intro s hs
      exact Sample.ne_of_key_lt s r (h s (by rw [hsplit]; simp [hs])) hr (hpre s hs)

theorem JSNum.strictEq_comm (a b : JSNum) : JSNum.strictEq a b = JSNum.strictEq b a := by
  cases a <;> cases b <;> simp [JSNum.strictEq, eq_comm]

theorem JSValue.strictEq_swap (v w : JSValue) : JSValue.strictEq v w = JSValue.strictEq w v := by
  cases v <;> cases w <;> simp [JSValue.strictEq, JSNum.strictEq_comm, eq_comm]

theorem JSNum.lt_irrefl (a : JSNum) : JSNum.lt a a = false := by
  cases a <;> simp [JSNum.lt]

theorem JSNum.add_nan_right (a : JSNum) : JSNum.add a JSNum.nan = JSNum.nan := by
  cases a <;> rfl

theorem JSNum.add_nan_left (a : JSNum) : JSNum.add JSNum.nan a = JSNum.nan := by
  cases a <;> rfl

theorem JSNum.lt_nan_right (a : JSNum) : JSNum.lt a JSNum.nan = false := by
  cases a <;> rfl

/-- A throughput that is present is read by the specification as JavaScript converts it. -/
theorem throughputOrZero_of_ne_undefined (v : JSValue) (h : v ≠ JSValue.undefined) :
    throughputOrZero v = JSValue.toNumber v := by
  cases v with
  | undefined => exact absurd rfl h
  | null => rfl
  | bool b => rfl
  | num n => rfl

/-- When both throughput fields are present, the sum the reducer computes is the sum
of the specification's reading, rounded to binary64. -/
theorem Sample.rate_of_present (s : Sample) (hrx : s.rx_mbps ≠ JSValue.undefined)
    (htx : s.tx_mbps ≠ JSValue.undefined) : s.rate = s.specRate64 := by
  simp only [Sample.rate, Sample.specRate64, Sample.specRate, JSValue.add, JSNum.add64,
    throughputOrZero_of_ne_undefined _ hrx, throughputOrZero_of_ne_undefined _ htx]

/-- When a throughput field is missing, the sum the reducer computes is `NaN`. -/
theorem Sample.rate_of_missing (s : Sample)
    (h : s.rx_mbps = JSValue.undefined ∨ s.tx_mbps = JSValue.undefined) :
    s.rate = JSNum.nan := by
  have hrate : s.rate =
      JSNum.round64 (JSNum.add (JSValue.toNumber s.rx_mbps) (JSValue.toNumber s.tx_mbps)) :=
    rfl
  rcases h with h | h
  · rw [hrate, h]
    show JSNum.round64 (JSNum.add JSNum.nan _) = JSNum.nan
    rw [JSNum.add_nan_left]
    rfl
  · rw [hrate, h]
    show JSNum.round64 (JSNum.add _ JSNum.nan) = JSNum.nan
    rw [JSNum.add_nan_right]
    rfl

/-- The sum the reducer computes is the rounded sum of the specification's reading,
unless a missing field has made it `NaN`. -/
theorem Sample.rate_eq_specRate64_or_nan (s : Sample) :
    s.rate = s.specRate64 ∨ s.rate = JSNum.nan := by
  by_cases hrx : s.rx_mbps = JSValue.undefined
  · exact Or.inr (s.rate_of_missing (Or.inl hrx))
  · by_cases htx : s.tx_mbps = JSValue.undefined
    · exact Or.inr (s.rate_of_missing (Or.inr htx))
    · exact Or.inl (s.rate_of_present hrx htx)

/-- On strictly equal signal strengths the reducer decides on the two sums alone. -/
theorem pickBestSample.reducer_of_strictEq (best current : Sample)
    (hsig : JSValue.strictEq current.signal_dbm best.signal_dbm = true) :
    pickBestSample.reducer (some best) current =
      if JSNum.lt best.rate current.rate = true then some current else some best := by
  have hgt : JSValue.gt current.signal_dbm best.signal_dbm = false := by
    rw [JSValue.strictEq_swap] at hsig
    exact JSValue.not_lt_of_strictEq _ _ hsig
  simp only [pickBestSample.reducer, hgt, hsig, Sample.rate]
  simp

/-- On strictly equal signal strengths the reducer keeps the accumulator as soon as
one of the two sums is `NaN`. -/
theorem pickBestSample.reducer_rate_nan (best current : Sample)
    (hsig : JSValue.strictEq current.signal_dbm best.signal_dbm = true)
    (h : best.rate = JSNum.nan ∨ current.rate = JSNum.nan) :
    pickBestSample.reducer (some best) current = some best := by
  rw [pickBestSample.reducer_of_strictEq best current hsig]
  rcases h with h | h
  · rw [h]
    simp [JSNum.lt]
  · rw [h, JSNum.lt_nan_right]
    simp

/-- The reducer keeps the accumulator on a candidate of the same signal strength and
the same rounded rx+tx sum. -/
theorem pickBestSample.reducer_full_tie (b x : Sample)
    (hsig : x.signal_dbm = b.signal_dbm) (hrate : x.specRate64 = b.specRate64) :
    pickBestSample.reducer (some b) x = some b := by
  have hgt : JSValue.gt x.signal_dbm b.signal_dbm = false := by
    rw [JSValue.gt, hsig]
    exact JSNum.lt_irrefl _
  have hlt : JSNum.lt (JSValue.add b.rx_mbps b.tx_mbps)
      (JSValue.add x.rx_mbps x.tx_mbps) = false := by
    show JSNum.lt b.rate x.rate = false
    rcases Sample.rate_eq_specRate64_or_nan b with hb | hb
    · rcases Sample.rate_eq_specRate64_or_nan x with hx | hx
      · rw [hb, hx, hrate]
        exact JSNum.lt_irrefl _
      · rw [hx]
        exact JSNum.lt_nan_right _
    · rw [hb]
      simp [JSNum.lt]
  simp [pickBestSample.reducer, hgt, hlt]

/-- Folding the reducer over samples that all tie with the accumulator returns the
accumulator. -/
theorem pickBestSample.foldl_full_tie (b : Sample) (l : List Sample)
    (h : ∀ x ∈ l, x.signal_dbm = b.signal_dbm ∧ x.specRate64 = b.specRate64) :
    l.foldl pickBestSample.reducer (some b) = some b := by
  induction l with
  | nil => rfl
  | cons x xs ih =>
    rw [List.foldl_cons, pickBestSample.reducer_full_tie b x (h x (by simp)).1 (h x (by simp)).2]
    exact ih (fun y hy => h y (List.mem_cons_of_mem _ hy))

/-- The binary64 sums of the examples: `0`, `15`, `40` and `2 ^ 53` are binary64
numbers, and `2 ^ 53 + 1` rounds to `2 ^ 53`. -/
theorem JSNum.ofRat64_examples :
    JSNum.ofRat64 0 = JSNum.fin 0 ∧ JSNum.ofRat64 15 = JSNum.fin 15 ∧
      JSNum.ofRat64 40 = JSNum.fin 40 ∧
      JSNum.ofRat64 9007199254740992 = JSNum.fin 9007199254740992 ∧
      JSNum.ofRat64 9007199254740993 = JSNum.fin 9007199254740992 := by
  refine ⟨?_, ?_, ?_, ?_, ?_⟩
  · simp [JSNum.ofRat64]
  · have h := JSNum.ofRat64_natCast 15 (by norm_num)
    norm_num at h
    exact h
  · have h := JSNum.ofRat64_natCast 40 (by norm_num)
    norm_num at h
    exact h
  · have h := JSNum.ofRat64_natCast 9007199254740992 (by norm_num)
    norm_num at h
    exact h
  · have h := JSNum.ofRat64_two_pow_53_add_one
    norm_num at h
    exact h

/-- The two samples at `-60` with throughputs `(2 ^ 53, 0)` and `(2 ^ 53, 1)`: the
exact sums are `2 ^ 53` and `2 ^ 53 + 1`, the binary64 sums are both `2 ^ 53`, and the
selector returns the first sample. -/
theorem pickBestSample_rounded_tie :
    (Sample.ofReadings "A" (-60) 9007199254740992 0).specRate =
        JSNum.fin 9007199254740992 ∧
      (Sample.ofReadings "B" (-60) 9007199254740992 1).specRate =
        JSNum.fin 9007199254740993 ∧
      (Sample.ofReadings "A" (-60) 9007199254740992 0).specRate64 =
        JSNum.fin 9007199254740992 ∧
      (Sample.ofReadings "B" (-60) 9007199254740992 1).specRate64 =
        JSNum.fin 9007199254740992 ∧
      pickBestSample.reducer (some (Sample.ofReadings "A" (-60) 9007199254740992 0))
        (Sample.ofReadings "B" (-60) 9007199254740992 1) =
          some (Sample.ofReadings "A" (-60) 9007199254740992 0) ∧
      pickBestSample (some [Sample.ofReadings "A" (-60) 9007199254740992 0,
          Sample.ofReadings "B" (-60) 9007199254740992 1]) =
        some (Sample.ofReadings "A" (-60) 9007199254740992 0) := by
  obtain ⟨-, -, -, e53, e53'⟩ := JSNum.ofRat64_examples
  have hA : (Sample.ofReadings "A" (-60) 9007199254740992 0).specRate =
      JSNum.fin 9007199254740992 := by
    norm_num [Sample.ofReadings, Sample.specRate, throughputOrZero, JSNum.add,
      JSValue.toNumber]
  have hB : (Sample.ofReadings "B" (-60) 9007199254740992 1).specRate =
      JSNum.fin 9007199254740993 := by
    norm_num [Sample.ofReadings, Sample.specRate, throughputOrZero, JSNum.add,
      JSValue.toNumber]
  have hA64 : (Sample.ofReadings "A" (-60) 9007199254740992 0).specRate64 =
      JSNum.fin 9007199254740992 := by
    rw [Sample.specRate64, hA, JSNum.round64, e53]
  have hB64 : (Sample.ofReadings "B" (-60) 9007199254740992 1).specRate64 =
      JSNum.fin 9007199254740992 := by
    rw [Sample.specRate64, hB, JSNum.round64, e53']
  have hred : pickBestSample.reducer (some (Sample.ofReadings "A" (-60) 9007199254740992 0))
      (Sample.ofReadings "B" (-60) 9007199254740992 1) =
        some (Sample.ofReadings "A" (-60) 9007199254740992 0) :=
    pickBestSample.reducer_full_tie _ _ rfl (by rw [hA64, hB64])
  refine ⟨hA, hB, hA64, hB64, hred, ?_⟩
  rw [pickBestSample_cons, List.foldl_cons, List.foldl_nil, hred]

/-- C7, refuted as stated: on two samples at `-60` with throughputs `(2 ^ 53, 0)` and
`(2 ^ 53, 1)`, all numeric, the selector returns the first, whose rx+tx sum `2 ^ 53`
is not the greatest: the binary64 `+` of the script rounds the second sum,
`2 ^ 53 + 1`, to `2 ^ 53` as well, and the tie keeps the first sample. -/
theorem pickBestSample_greatest_counterexample :
    (∀ s ∈ [Sample.ofReadings "A" (-60) 9007199254740992 0,
        Sample.ofReadings "B" (-60) 9007199254740992 1],
      s.signal_dbm.isNumber = true ∧ s.rx_mbps.isFiniteNumber = true ∧
        s.tx_mbps.isFiniteNumber = true) ∧
      pickBestSample (some [Sample.ofReadings "A" (-60) 9007199254740992 0,
          Sample.ofReadings "B" (-60) 9007199254740992 1]) =
        some (Sample.ofReadings "A" (-60) 9007199254740992 0) ∧
      (Sample.ofReadings "A" (-60) 9007199254740992 0).specRate =
        JSNum.fin 9007199254740992 ∧
      (Sample.ofReadings "B" (-60) 9007199254740992 1).specRate =
        JSNum.fin 9007199254740993 ∧
      ¬ ∃ r, pickBestSample (some [Sample.ofReadings "A" (-60) 9007199254740992 0,
          Sample.ofReadings "B" (-60) 9007199254740992 1]) = some r ∧
        ∀ s ∈ [Sample.ofReadings "A" (-60) 9007199254740992 0,
            Sample.ofReadings "B" (-60) 9007199254740992 1],
          JSNum.le (JSValue.toNumber s.signal_dbm) (JSValue.toNumber r.signal_dbm) = true ∧
          (JSValue.strictEq s.signal_dbm r.signal_dbm = true →
            JSNum.le s.specRate r.specRate = true) := by
  obtain ⟨hA, hB, -, -, -, hpick⟩ := pickBestSample_rounded_tie
  refine ⟨?_, hpick, hA, hB, ?_⟩
  · intro s hs
    rcases List.mem_cons.mp hs with h | h
    · subst h
      simp [Sample.ofReadings, JSValue.isNumber, JSValue.isFiniteNumber]
    · rw [List.mem_singleton.mp h]
      simp [Sample.ofReadings, JSValue.isNumber, JSValue.isFiniteNumber]
  · rintro ⟨r, hr, hmax⟩
    rw [hpick] at hr
    have hr : Sample.ofReadings "A" (-60) 9007199254740992 0 = r := Option.some.inj hr
    subst hr
    have h := (hmax (Sample.ofReadings "B" (-60) 9007199254740992 1) (by simp)).2
      (by simp [Sample.ofReadings, JSValue.strictEq, JSNum.strictEq])
    rw [hA, hB] at h
    norm_num [JSNum.le, JSNum.lt] at h

/-- C7, amended: on a non-empty list of samples with numeric signal strengths (numbers
other than `NaN`) and finite throughputs, the selector returns a sample of the list
whose signal strength is the greatest and whose rx+tx sum, as the script computes it
in binary64, is the greatest among the samples of that signal strength; on the two
samples at `-60` with sums `15` and `40` it returns the second. -/
theorem pickBestSample_greatest (l : List Sample) (hne : l ≠ [])
    (hnum : ∀ s ∈ l, s.signal_dbm.isNumber = true ∧ s.rx_mbps.isFiniteNumber = true ∧
      s.tx_mbps.isFiniteNumber = true) :
    (∃ r, pickBestSample (some l) = some r ∧ r ∈ l ∧
      ∀ s ∈ l,
        JSNum.le (JSValue.toNumber s.signal_dbm) (JSValue.toNumber r.signal_dbm) = true ∧
        (JSValue.strictEq s.signal_dbm r.signal_dbm = true →
          JSNum.le (JSValue.add s.rx_mbps s.tx_mbps)
            (JSValue.add r.rx_mbps r.tx_mbps) = true)) ∧
      pickBestSample (some [Sample.ofReadings "first" (-60) 10 5,
        Sample.ofReadings "second" (-60) 20 20]) =
          some (Sample.ofReadings "second" (-60) 20 20) := by
  constructor
  · have hc : ∀ s ∈ l, s.comparable := fun s hs =>
      (Sample.comparable_of_finiteOrNull s (hnum s hs).1
        (JSValue.isFiniteOrNull_of_isFiniteNumber _ (hnum s hs).2.1)
        (JSValue.isFiniteOrNull_of_isFiniteNumber _ (hnum s hs).2.2)).1
    obtain ⟨pre, r, post, hsplit, hpick, hmax, -⟩ := pickBestSample_earliest_max l hne hc
    exact ⟨r, hpick, by rw [hsplit]; simp, hmax⟩
  · obtain ⟨-, e15, e40, -, -⟩ := JSNum.ofRat64_examples
    norm_num [pickBestSample, pickBestSample.reducer, Sample.ofReadings, JSValue.gt,
      JSValue.toNumber, JSNum.lt, JSValue.strictEq, JSNum.strictEq, JSValue.add,
      JSNum.add64, JSNum.add, JSNum.round64, e15, e40]

/-- C7, amended, at the two samples of the specification: signal `-60` both, sums `15`
and `40`. -/
theorem pickBestSample_greatest_witness :
    [Sample.ofReadings "first" (-60) 10 5, Sample.ofReadings "second" (-60) 20 20] ≠ [] ∧
      ∃ r, pickBestSample (some [Sample.ofReadings "first" (-60) 10 5,
          Sample.ofReadings "second" (-60) 20 20]) = some r ∧
        r ∈ [Sample.ofReadings "first" (-60) 10 5, Sample.ofReadings "second" (-60) 20 20] ∧
        ∀ s ∈ [Sample.ofReadings "first" (-60) 10 5, Sample.ofReadings "second" (-60) 20 20],
          JSNum.le (JSValue.toNumber s.signal_dbm) (JSValue.toNumber r.signal_dbm) = true ∧
          (JSValue.strictEq s.signal_dbm r.signal_dbm = true →
            JSNum.le (JSValue.add s.rx_mbps s.tx_mbps)
              (JSValue.add r.rx_mbps r.tx_mbps) = true) :=
  ⟨by simp,
    (pickBestSample_greatest
      [Sample.ofReadings "first" (-60) 10 5, Sample.ofReadings "second" (-60) 20 20]
      (by simp)
      (by
        intro s hs
        rcases List.mem_cons.mp hs with h | h
        · subst h
          simp [Sample.ofReadings, JSValue.isNumber, JSValue.isFiniteNumber]
        · rw [List.mem_singleton.mp h]
          simp [Sample.ofReadings, JSValue.isNumber, JSValue.isFiniteNumber])).1⟩

/-- C8, refuted as stated, twice. With equal signal strengths `-60`, an accumulator
whose throughputs are missing (sum `0` once each missing value counts as `0`) and a
candidate of sum `15`: the candidate's sum exceeds the accumulator's and yet the
reducer keeps the accumulator. And with throughputs `(2 ^ 53, 0)` in the accumulator
and `(2 ^ 53, 1)` in the candidate: the candidate's sum `2 ^ 53 + 1` exceeds `2 ^ 53`
and yet the reducer keeps the accumulator, the two sums being equal in binary64. -/
theorem pickBestSample.reducer_missing_throughput_counterexample :
    (JSValue.strictEq (Sample.ofReadings "B" (-60) 10 5).signal_dbm
        (Sample.ofSignal "A" (-60)).signal_dbm = true ∧
      (Sample.ofSignal "A" (-60)).specRate = JSNum.fin 0 ∧
      (Sample.ofReadings "B" (-60) 10 5).specRate = JSNum.fin 15 ∧
      JSNum.lt (Sample.ofSignal "A" (-60)).specRate
        (Sample.ofReadings "B" (-60) 10 5).specRate = true ∧
      pickBestSample.reducer (some (Sample.ofSignal "A" (-60)))
        (Sample.ofReadings "B" (-60) 10 5) = some (Sample.ofSignal "A" (-60)) ∧
      pickBestSample.reducer (some (Sample.ofSignal "A" (-60)))
        (Sample.ofReadings "B" (-60) 10 5) ≠ some (Sample.ofReadings "B" (-60) 10 5)) ∧
      (JSValue.strictEq (Sample.ofReadings "B" (-60) 9007199254740992 1).signal_dbm
        (Sample.ofReadings "A" (-60) 9007199254740992 0).signal_dbm = true ∧
      JSNum.lt (Sample.ofReadings "A" (-60) 9007199254740992 0).specRate
        (Sample.ofReadings "B" (-60) 9007199254740992 1).specRate = true ∧
      pickBestSample.reducer (some (Sample.ofReadings "A" (-60) 9007199254740992 0))
        (Sample.ofReadings "B" (-60) 9007199254740992 1) =
          some (Sample.ofReadings "A" (-60) 9007199254740992 0) ∧
      pickBestSample.reducer (some (Sample.ofReadings "A" (-60) 9007199254740992 0))
        (Sample.ofReadings "B" (-60) 9007199254740992 1) ≠
          some (Sample.ofReadings "B" (-60) 9007199254740992 1)) := by
  have hsig : JSValue.strictEq (Sample.ofReadings "B" (-60) 10 5).signal_dbm
      (Sample.ofSignal "A" (-60)).signal_dbm = true := by
    simp [Sample.ofReadings, Sample.ofSignal, JSValue.strictEq, JSNum.strictEq]
  have hkeep : pickBestSample.reducer (some (Sample.ofSignal "A" (-60)))
      (Sample.ofReadings "B" (-60) 10 5) = some (Sample.ofSignal "A" (-60)) :=
    pickBestSample.reducer_rate_nan _ _ hsig
      (Or.inl ((Sample.ofSignal "A" (-60)).rate_of_missing (Or.inl rfl)))
  have hne : Sample.ofSignal "A" (-60) ≠ Sample.ofReadings "B" (-60) 10 5 := by
    intro h
    have h := congrArg Sample.rx_mbps h
    simp [Sample.ofSignal, Sample.ofReadings] at h
  obtain ⟨hA, hB, -, -, hred, -⟩ := pickBestSample_rounded_tie
  have hne53 : Sample.ofReadings "A" (-60) 9007199254740992 0 ≠
      Sample.ofReadings "B" (-60) 9007199254740992 1 := by
    intro h
    have h := congrArg Sample.tx_mbps h
    simp [Sample.ofReadings] at h
  refine ⟨⟨hsig, ?_, ?_, ?_, hkeep, ?_⟩, ⟨?_, ?_, hred, ?_⟩⟩
  · norm_num [Sample.ofSignal, Sample.specRate, throughputOrZero, JSNum.add]
  · norm_num [Sample.ofReadings, Sample.specRate, throughputOrZero, JSNum.add,
      JSValue.toNumber]
  · norm_num [Sample.ofReadings, Sample.ofSignal, Sample.specRate, throughputOrZero,
      JSNum.add, JSValue.toNumber, JSNum.lt]
  · rw [hkeep]
    exact fun h => hne (Option.some.inj h)
  · simp [Sample.ofReadings, JSValue.strictEq, JSNum.strictEq]
  · rw [hA, hB]
    norm_num [JSNum.lt]
  · rw [hred]
    exact fun h => hne53 (Option.some.inj h)

/-- C8, amended: on two samples of strictly equal signal strength whose throughput
fields are all present (`null` allowed, counting as `0`), the reducer replaces the
accumulator by the candidate exactly when the candidate's rx+tx sum, rounded to
binary64 as the script's `+` rounds it, exceeds the accumulator's. A sample with a
missing throughput field has the sum `NaN`, and when either sample has one the reducer
keeps the accumulator. -/
theorem pickBestSample.reducer_tie_break (best current : Sample)
    (hsig : JSValue.strictEq current.signal_dbm best.signal_dbm = true) :
    (best.rx_mbps ≠ JSValue.undefined ∧ best.tx_mbps ≠ JSValue.undefined ∧
        current.rx_mbps ≠ JSValue.undefined ∧ current.tx_mbps ≠ JSValue.undefined →
      pickBestSample.reducer (some best) current =
        if JSNum.lt best.specRate64 current.specRate64 = true then some current
        else some best) ∧
      (best.rx_mbps = JSValue.undefined ∨ best.tx_mbps = JSValue.undefined →
        JSValue.add best.rx_mbps best.tx_mbps = JSNum.nan) ∧
      (current.rx_mbps = JSValue.undefined ∨ current.tx_mbps = JSValue.undefined →
        JSValue.add current.rx_mbps current.tx_mbps = JSNum.nan) ∧
      ((best.rx_mbps = JSValue.undefined ∨ best.tx_mbps = JSValue.undefined) ∨
          (current.rx_mbps = JSValue.undefined ∨ current.tx_mbps = JSValue.undefined) →
        pickBestSample.reducer (some best) current = some best) := by
  refine ⟨?_, best.rate_of_missing, current.rate_of_missing, ?_⟩
  · rintro ⟨h1, h2, h3, h4⟩
    rw [pickBestSample.reducer_of_strictEq best current hsig, best.rate_of_present h1 h2,
      current.rate_of_present h3 h4]
  · intro h
    apply pickBestSample.reducer_rate_nan best current hsig
    rcases h with h | h
    · exact Or.inl (best.rate_of_missing h)
    · exact Or.inr (current.rate_of_missing h)

/-- C8, amended, at an accumulator whose throughputs are `null` and a candidate of sum
`15`, both at `-60`: the candidate replaces the accumulator. -/
theorem pickBestSample.reducer_tie_break_witness :
    pickBestSample.reducer
        (some { Sample.ofSignal "A" (-60) with
          rx_mbps := JSValue.null, tx_mbps := JSValue.null })
        (Sample.ofReadings "B" (-60) 10 5) =
      some (Sample.ofReadings "B" (-60) 10 5) := by
  have h := (pickBestSample.reducer_tie_break
    { Sample.ofSignal "A" (-60) with rx_mbps := JSValue.null, tx_mbps := JSValue.null }
    (Sample.ofReadings "B" (-60) 10 5)
    (by simp [Sample.ofReadings, Sample.ofSignal, JSValue.strictEq, JSNum.strictEq])).1
    (by simp [Sample.ofReadings])
  rw [h]
  obtain ⟨e0, e15, -, -, -⟩ := JSNum.ofRat64_examples
  norm_num [Sample.ofReadings, Sample.ofSignal, Sample.specRate64, Sample.specRate,
    throughputOrZero, JSNum.add, JSValue.toNumber, JSNum.round64, e0, e15, JSNum.lt]

/-- C9, refuted as stated, twice. On a first sample at `-60` whose throughputs are
missing (sum `0` once each missing value counts as `0`) and a second sample at `-60`
of sum `15`, the selector returns the first sample, which does not attain the maximal
(signal strength, rx+tx sum) pair. And on two samples at `-60` with throughputs
`(2 ^ 53, 0)` and `(2 ^ 53, 1)` the selector returns the first, of sum `2 ^ 53`, not
the second, of sum `2 ^ 53 + 1`: the two sums are equal in binary64. -/
theorem pickBestSample_first_seen_counterexample :
    (pickBestSample (some [Sample.ofSignal "A" (-60), Sample.ofReadings "B" (-60) 10 5]) =
        some (Sample.ofSignal "A" (-60)) ∧
      ¬ ∃ r, pickBestSample
          (some [Sample.ofSignal "A" (-60), Sample.ofReadings "B" (-60) 10 5]) = some r ∧
        ∀ s ∈ [Sample.ofSignal "A" (-60), Sample.ofReadings "B" (-60) 10 5],
          JSNum.le (JSValue.toNumber s.signal_dbm) (JSValue.toNumber r.signal_dbm) = true ∧
          (JSValue.strictEq s.signal_dbm r.signal_dbm = true →
            JSNum.le s.specRate r.specRate = true)) ∧
      (pickBestSample (some [Sample.ofReadings "A" (-60) 9007199254740992 0,
          Sample.ofReadings "B" (-60) 9007199254740992 1]) =
        some (Sample.ofReadings "A" (-60) 9007199254740992 0) ∧
      JSValue.strictEq (Sample.ofReadings "B" (-60) 9007199254740992 1).signal_dbm
        (Sample.ofReadings "A" (-60) 9007199254740992 0).signal_dbm = true ∧
      JSNum.le (Sample.ofReadings "B" (-60) 9007199254740992 1).specRate
        (Sample.ofReadings "A" (-60) 9007199254740992 0).specRate = false) := by
  have hsig : JSValue.strictEq (Sample.ofReadings "B" (-60) 10 5).signal_dbm
      (Sample.ofSignal "A" (-60)).signal_dbm = true := by
    simp [Sample.ofReadings, Sample.ofSignal, JSValue.strictEq, JSNum.strictEq]
  have hkeep : pickBestSample.reducer (some (Sample.ofSignal "A" (-60)))
      (Sample.ofReadings "B" (-60) 10 5) = some (Sample.ofSignal "A" (-60)) :=
    pickBestSample.reducer_rate_nan _ _ hsig
      (Or.inl ((Sample.ofSignal "A" (-60)).rate_of_missing (Or.inl rfl)))
  have hpick : pickBestSample
      (some [Sample.ofSignal "A" (-60), Sample.ofReadings "B" (-60) 10 5]) =
        some (Sample.ofSignal "A" (-60)) := by
    rw [pickBestSample_cons, List.foldl_cons, List.foldl_nil, hkeep]
  obtain ⟨hA, hB, -, -, -, hpick53⟩ := pickBestSample_rounded_tie
  refine ⟨⟨hpick, ?_⟩, ⟨hpick53, ?_, ?_⟩⟩
  · rintro ⟨r, hr, hmax⟩
    rw [hpick] at hr
    have hr : Sample.ofSignal "A" (-60) = r := Option.some.inj hr
    subst hr
    have h := (hmax (Sample.ofReadings "B" (-60) 10 5) (by simp)).2 hsig
    norm_num [Sample.ofReadings, Sample.ofSignal, Sample.specRate, throughputOrZero,
      JSNum.add, JSValue.toNumber, JSNum.le, JSNum.lt] at h
  · simp [Sample.ofReadings, JSValue.strictEq, JSNum.strictEq]
  · rw [hA, hB]
    norm_num [JSNum.le, JSNum.lt]

/-- C9, amended: on a non-empty list of samples whose signal strengths are numbers
other than `NaN` and whose throughputs are finite numbers or `null` (counting as `0`),
the selector returns the earliest sample attaining the maximal (signal strength, rx+tx
sum) pair, the sum being rounded to binary64 as the script's `+` rounds it: the list
splits around the returned sample `r`, no sample has a greater pair than `r`, and no
sample before `r` has the same pair. And on every non-empty list whose samples all
have the same signal strength and the same rounded rx+tx sum, the selector returns the
first sample. -/
theorem pickBestSample_first_seen (l : List Sample) (hne : l ≠ []) :
    ((∀ s ∈ l, s.signal_dbm.isNumber = true ∧ s.rx_mbps.isFiniteOrNull = true ∧
        s.tx_mbps.isFiniteOrNull = true) →
      ∃ pre r post, l = pre ++ r :: post ∧ pickBestSample (some l) = some r ∧
        (∀ s ∈ l,
          JSNum.le (JSValue.toNumber s.signal_dbm) (JSValue.toNumber r.signal_dbm) = true ∧
          (JSValue.strictEq s.signal_dbm r.signal_dbm = true →
            JSNum.le s.specRate64 r.specRate64 = true)) ∧
        (∀ s ∈ pre, ¬ (JSValue.strictEq s.signal_dbm r.signal_dbm = true ∧
          JSNum.strictEq s.specRate64 r.specRate64 = true))) ∧
      ((∀ s ∈ l, ∀ t ∈ l, s.signal_dbm = t.signal_dbm ∧ s.specRate64 = t.specRate64) →
        pickBestSample (some l) = l.head?) := by
  constructor
  · intro h
    have hc : ∀ s ∈ l, s.comparable ∧ s.specRate64 = s.rate := fun s hs =>
      Sample.comparable_of_finiteOrNull s (h s hs).1 (h s hs).2.1 (h s hs).2.2
    obtain ⟨pre, r, post, hsplit, hpick, hmax, hpre⟩ :=
      pickBestSample_earliest_max l hne (fun s hs => (hc s hs).1)
    have hrl : r ∈ l := by rw [hsplit]; simp
    refine ⟨pre, r, post, hsplit, hpick, ?_, ?_⟩
    · intro s hs
      rw [(hc s hs).2, (hc r hrl).2]
      exact hmax s hs
    · intro s hs
      have hsl : s ∈ l := by rw [hsplit]; simp [hs]
      rw [(hc s hsl).2, (hc r hrl).2]
      exact hpre s hs
  · intro h
    cases l with
    | nil => exact absurd rfl hne
    | cons b xs =>
      rw [pickBestSample_cons, List.head?_cons]
      exact pickBestSample.foldl_full_tie b xs
        (fun x hx => h x (List.mem_cons_of_mem _ hx) b (by simp))

/-- C9, amended, at two samples at `-60` whose sums are both `15`: the selector
returns the first one. -/
theorem pickBestSample_first_seen_witness :
    [Sample.ofReadings "first" (-60) 10 5, Sample.ofReadings "second" (-60) 5 10] ≠ [] ∧
      pickBestSample
          (some [Sample.ofReadings "first" (-60) 10 5, Sample.ofReadings "second" (-60) 5 10]) =
        some (Sample.ofReadings "first" (-60) 10 5) := by
  refine ⟨by simp, ?_⟩
  have h := (pickBestSample_first_seen
    [Sample.ofReadings "first" (-60) 10 5, Sample.ofReadings "second" (-60) 5 10]
    (by simp)).2
  rw [h]
  · rfl
  · intro s hs t ht
    obtain ⟨-, e15, -, -, -⟩ := JSNum.ofRat64_examples
    have e1 : (Sample.ofReadings "first" (-60) 10 5).specRate64 = JSNum.fin 15 := by
      norm_num [Sample.ofReadings, Sample.specRate64, Sample.specRate, throughputOrZero,
        JSNum.add, JSValue.toNumber, JSNum.round64, e15]
    have e2 : (Sample.ofReadings "second" (-60) 5 10).specRate64 = JSNum.fin 15 := by
      norm_num [Sample.ofReadings, Sample.specRate64, Sample.specRate, throughputOrZero,
        JSNum.add, JSValue.toNumber, JSNum.round64, e15]
    rcases List.mem_cons.mp hs with hs | hs
    · rcases List.mem_cons.mp ht with ht | ht
      · rw [hs, ht]; exact ⟨rfl, rfl⟩
      · rw [hs, List.mem_singleton.mp ht, e1, e2]; exact ⟨rfl, rfl⟩
    · rcases List.mem_cons.mp ht with ht | ht
      · rw [List.mem_singleton.mp hs, ht, e1, e2]; exact ⟨rfl, rfl⟩
      · rw [List.mem_singleton.mp hs, List.mem_singleton.mp ht]; exact ⟨rfl, rfl⟩

/-! ## The display state update -/

/-- A throughput that is a number, `null` or missing formats without throwing. -/
theorem mbpsText_isSome_of_not_bool (v : JSValue)
    (h : (match v with | JSValue.bool _ => false | _ => true) = true) :
    ∃ t, mbpsText v = some t := by
  rw [← Option.isSome_iff_exists]
  cases v with
  | undefined => simp [mbpsText, JSValue.truthy]
  | null => simp [mbpsText, JSValue.truthy]
  | bool b => simp at h
  | num n =>
    by_cases ht : (JSValue.num n).truthy = true
    · simp [mbpsText, ht]
    · simp [mbpsText, ht]

/-- On a sample with typed throughputs `updateReadout` returns, having set
`targetQuality` and the quality label from the normalized signal strength and left
the rest of `state` alone. -/
theorem updateReadout_ok (w : World) (sample : Sample)
    (ht : sample.throughputsTyped = true) :
    ∃ w1, updateReadout w sample = Except.ok w1 ∧
      w1.state.targetQuality = normalizeSignal sample.signal_dbm ∧
      w1.state.displayQuality = w.state.displayQuality ∧
      w1.state.lastSignal = w.state.lastSignal ∧
      w1.elements.quality = qualityLabel (normalizeSignal sample.signal_dbm) := by
  simp only [Sample.throughputsTyped, Bool.and_eq_true] at ht
  obtain ⟨rx, hrx⟩ := mbpsText_isSome_of_not_bool _ ht.1
  obtain ⟨tx, htx⟩ := mbpsText_isSome_of_not_bool _ ht.2
  simp only [updateReadout, hrx, htx]
  exact ⟨_, rfl, rfl, rfl, rfl, rfl⟩

/-- Whether it returns or throws, `updateReadout` leaves `displayQuality` and
`lastSignal` alone and shows the identifiers of the sample. -/
theorem updateReadout_frame (w : World) (sample : Sample) :
    (updateReadout w sample).world.state.displayQuality = w.state.displayQuality ∧
      (updateReadout w sample).world.state.lastSignal = w.state.lastSignal ∧
      (updateReadout w sample).world.elements.ssid = orDash sample.ssid ∧
      (updateReadout w sample).world.elements.bssid = orDash sample.bssid := by
  simp only [updateReadout]
  cases mbpsText sample.rx_mbps with
  | none => exact ⟨rfl, rfl, rfl, rfl⟩
  | some rx =>
    cases mbpsText sample.tx_mbps with
    | none => exact ⟨rfl, rfl, rfl, rfl⟩
    | some tx => exact ⟨rfl, rfl, rfl, rfl⟩

/-- The quality that `updateReadout` would store for the sample, `none` when a
`toFixed` call throws before the assignment. -/
theorem updateReadout_target (w : World) (sample : Sample) :
    (updateReadout w sample).world.state.targetQuality =
      if (mbpsText sample.rx_mbps).isSome ∧ (mbpsText sample.tx_mbps).isSome then
        normalizeSignal sample.signal_dbm
      else w.state.targetQuality := by
  simp only [updateReadout]
  cases mbpsText sample.rx_mbps with
  | none => simp [Except.world]
  | some rx =>
    cases mbpsText sample.tx_mbps with
    | none => simp [Except.world]
    | some tx => simp [Except.world]

/-- The effect of `handleStatus` on `targetQuality` is decided by the report alone:
the world's previous value is kept when no sample is chosen or a `toFixed` call throws,
and replaced by the normalized signal strength of the chosen sample otherwise. -/
theorem handleStatus_target (w : World) (status : Status) :
    (handleStatus w status).world.state.targetQuality =
      match pickBestSample status.interfaces with
      | none => w.state.targetQuality
      | some sample =>
        if (mbpsText sample.rx_mbps).isSome ∧ (mbpsText sample.tx_mbps).isSome then
          normalizeSignal sample.signal_dbm
        else w.state.targetQuality := by
  simp only [handleStatus]
  cases pickBestSample status.interfaces with
  | none => rfl
  | some sample => exact updateReadout_target w sample

/-- C11, refuted as stated: from the startup state, `handleStatus` on a report whose
one sample is chosen by `pickBestSample` returns with `state.lastSignal` still `null`. -/
theorem handleStatus_lastSignal_counterexample :
    pickBestSample (some [Sample.ofReadings "home" (-50) 10 5]) =
        some (Sample.ofReadings "home" (-50) 10 5) ∧
      (handleStatus (startWorld Elements.blank)
        { interfaces := some [Sample.ofReadings "home" (-50) 10 5] }).world.state.lastSignal =
          none ∧
      (handleStatus (startWorld Elements.blank)
        { interfaces := some [Sample.ofReadings "home" (-50) 10 5] }).world.state.lastSignal ≠
          some (Sample.ofReadings "home" (-50) 10 5) := by
  have hp : pickBestSample (some [Sample.ofReadings "home" (-50) 10 5]) =
      some (Sample.ofReadings "home" (-50) 10 5) := by
    simp [pickBestSample, pickBestSample.reducer]
  have hl : (handleStatus (startWorld Elements.blank)
      { interfaces := some [Sample.ofReadings "home" (-50) 10 5] }).world.state.lastSignal =
        none := by
    simp only [handleStatus, hp]
    exact (updateReadout_frame _ _).2.1
  refine ⟨hp, hl, ?_⟩
  rw [hl]
  exact fun h => Option.noConfusion h

/-- C11, amended: `handleStatus` never writes `state.lastSignal`, which keeps its
previous value on every report; the sample chosen by `pickBestSample` is shown in the
readout instead, the `ssid` and `bssid` texts being its identifiers (`"—"` when
absent). -/
theorem handleStatus_lastSignal_unchanged (w : World) (status : Status) :
    (handleStatus w status).world.state.lastSignal = w.state.lastSignal ∧
      ∀ sample, pickBestSample status.interfaces = some sample →
        (handleStatus w status).world.elements.ssid = orDash sample.ssid ∧
        (handleStatus w status).world.elements.bssid = orDash sample.bssid := by
  simp only [handleStatus]
  cases pickBestSample status.interfaces with
  | none => exact ⟨rfl, fun s h => Option.noConfusion h⟩
  | some chosen =>
    refine ⟨(updateReadout_frame w chosen).2.1, ?_⟩
    intro sample h
    have h : chosen = sample := Option.some.inj h
    subst h
    exact ⟨(updateReadout_frame w chosen).2.2.1, (updateReadout_frame w chosen).2.2.2⟩

/-- C12: when `pickBestSample` chooses the sample `s` of a report, whose throughputs
are numbers, `null` or missing, `handleStatus` returns and `state.targetQuality` is
`normalizeSignal(s.signal_dbm)`. -/
theorem handleStatus_targetQuality (w : World) (status : Status) (s : Sample)
    (hpick : pickBestSample status.interfaces = some s)
    (htyped : s.throughputsTyped = true) :
    ∃ w1, handleStatus w status = Except.ok w1 ∧
      w1.state.targetQuality = normalizeSignal s.signal_dbm := by
  obtain ⟨w1, hok, htarget, -⟩ := updateReadout_ok w s htyped
  exact ⟨w1, by simp only [handleStatus, hpick, hok], htarget⟩

/-- C12 at the startup state and a report of one sample at `-65`: the target quality
becomes `50`. -/
theorem handleStatus_targetQuality_witness :
    ∃ w1, handleStatus (startWorld Elements.blank)
        { interfaces := some [Sample.ofReadings "home" (-65) 10 5] } = Except.ok w1 ∧
      w1.state.targetQuality = JSNum.fin 50 := by
  obtain ⟨w1, hok, htarget⟩ := handleStatus_targetQuality (startWorld Elements.blank)
    { interfaces := some [Sample.ofReadings "home" (-65) 10 5] }
    (Sample.ofReadings "home" (-65) 10 5)
    (by simp [pickBestSample, pickBestSample.reducer])
    (by simp [Sample.throughputsTyped, Sample.ofReadings])
  refine ⟨w1, hok, ?_⟩
  rw [htarget]
  show normalizeSignal (JSValue.num (JSNum.fin (-65))) = JSNum.fin 50
  rw [normalizeSignal_fin]
  norm_num

/-- C14: on a report with zero samples (an empty `interfaces` array, or none at all)
`handleStatus` returns and leaves the whole world, state and page, as it was. -/
theorem handleStatus_empty_noop (w : World) (status : Status)
    (hempty : status.interfaces = some [] ∨ status.interfaces = none) :
    handleStatus w status = Except.ok w := by
  rcases hempty with h | h <;> simp [handleStatus, h, pickBestSample]

/-- C14 after a valid report: the empty report that follows changes nothing. -/
theorem handleStatus_empty_noop_witness :
    handleStatus
        (handleStatus (startWorld Elements.blank)
          { interfaces := some [Sample.ofReadings "home" (-65) 10 5] }).world
        { interfaces := some [] } =
      Except.ok
        (handleStatus (startWorld Elements.blank)
          { interfaces := some [Sample.ofReadings "home" (-65) 10 5] }).world :=
  handleStatus_empty_noop _ _ (Or.inl rfl)

/-! ## Telemetry ingestion -/

/-- C15, refuted as stated: at startup, a pull answered by a non-success response
leaves the quality label as the page had it, not "Waiting for data". -/
theorem step_pullNotOk_counterexample :
    (step (startWorld Elements.blank) Event.pullNotOk).elements.quality = "" ∧
      (step (startWorld Elements.blank) Event.pullNotOk).elements.quality ≠
        "Waiting for data" := by
  refine ⟨rfl, ?_⟩
  show ("" : String) ≠ "Waiting for data"
  decide

/-- C15, amended: a pull that fails by a network error or by an unparseable body sets
the quality label to "Waiting for data"; a pull answered by a non-success response
changes nothing, the label included. -/
theorem step_pull_failure (w : World) :
    (step w Event.pullNetworkError).elements.quality = "Waiting for data" ∧
      (step w Event.pullBadBody).elements.quality = "Waiting for data" ∧
      step w Event.pullNotOk = w :=
  ⟨rfl, rfl, rfl⟩

/-- C16: a failed pull (network error, non-success response, unparseable body), a push
message that fails to parse and a stream error each leave `state`, that is
`targetQuality`, `displayQuality` and `lastSignal`, as it was. -/
theorem step_failure_state (w : World) :
    (step w Event.pullNetworkError).state = w.state ∧
      (step w Event.pullNotOk).state = w.state ∧
      (step w Event.pullBadBody).state = w.state ∧
      (step w (Event.pushMessage none)).state = w.state ∧
      (step w Event.streamError).state = w.state :=
  ⟨rfl, rfl, rfl, rfl, rfl⟩

/-! ## The quality label -/

theorem JSNum.ge_fin_fin (a b : ℚ) : JSNum.ge (JSNum.fin a) (JSNum.fin b) = decide (b ≤ a) :=
  JSNum.le_fin_fin b a

/-- The label chain on a number other than `NaN`, threshold by threshold. -/
theorem qualityLabel_iff (q : JSNum) (hq : q ≠ JSNum.nan) :
    (qualityLabel q = "Strong signal" ↔ JSNum.ge q (JSNum.fin 75) = true) ∧
      (qualityLabel q = "Stable signal" ↔
        JSNum.ge q (JSNum.fin 45) = true ∧ JSNum.lt q (JSNum.fin 75) = true) ∧
      (qualityLabel q = "Weak signal" ↔
        JSNum.ge q (JSNum.fin 20) = true ∧ JSNum.lt q (JSNum.fin 45) = true) ∧
      (qualityLabel q = "Searching for signal" ↔ JSNum.lt q (JSNum.fin 20) = true) := by
  cases q with
  | nan => exact absurd rfl hq
  | negInf => simp [qualityLabel, JSNum.ge, JSNum.le, JSNum.lt]
  | posInf => simp [qualityLabel, JSNum.ge, JSNum.le, JSNum.lt]
  | fin x =>
    simp only [qualityLabel, JSNum.ge_fin_fin, JSNum.lt, decide_eq_true_eq]
    by_cases h75 : (75 : ℚ) ≤ x
    · have h45 : (45 : ℚ) ≤ x := by linarith
      have h20 : (20 : ℚ) ≤ x := by linarith
      simp [h75, h45, h20, not_lt.mpr h75, not_lt.mpr h45, not_lt.mpr h20]
    · by_cases h45 : (45 : ℚ) ≤ x
      · have h20 : (20 : ℚ) ≤ x := by linarith
        simp [h75, h45, h20, not_le.mp h75, not_lt.mpr h45, not_lt.mpr h20]
      · by_cases h20 : (20 : ℚ) ≤ x
        · simp [h75, h45, h20, not_le.mp h75, not_le.mp h45, not_lt.mpr h20]
        · simp [h75, h45, h20, not_le.mp h75, not_le.mp h45, not_le.mp h20]

/-- With no number to compare, the label chain falls through to its last branch. -/
theorem qualityLabel_nan : qualityLabel JSNum.nan = "Searching for signal" := by
  simp [qualityLabel, JSNum.ge, JSNum.le]

/-- C18: on a sample whose throughputs are numbers, `null` or missing, `updateReadout`
returns with the quality label that the chain gives for
`q = normalizeSignal(sample.signal_dbm)`; and on every number `q` the chain has
inclusive lower bounds: Strong iff `q >= 75`, Stable iff `45 <= q < 75`, Weak iff
`20 <= q < 45`, Searching iff `q < 20`, so that exactly one label applies. -/
theorem updateReadout_label (w : World) (sample : Sample)
    (htyped : sample.throughputsTyped = true) :
    (∃ w1, updateReadout w sample = Except.ok w1 ∧
      w1.elements.quality = qualityLabel (normalizeSignal sample.signal_dbm)) ∧
      ∀ q : JSNum, q ≠ JSNum.nan →
        (qualityLabel q = "Strong signal" ↔ JSNum.ge q (JSNum.fin 75) = true) ∧
        (qualityLabel q = "Stable signal" ↔
          JSNum.ge q (JSNum.fin 45) = true ∧ JSNum.lt q (JSNum.fin 75) = true) ∧
        (qualityLabel q = "Weak signal" ↔
          JSNum.ge q (JSNum.fin 20) = true ∧ JSNum.lt q (JSNum.fin 45) = true) ∧
        (qualityLabel q = "Searching for signal" ↔ JSNum.lt q (JSNum.fin 20) = true) := by
  obtain ⟨w1, hok, -, -, -, hlabel⟩ := updateReadout_ok w sample htyped
  exact ⟨⟨w1, hok, hlabel⟩, qualityLabel_iff⟩

/-- C18 at a sample at `-65`, of quality `50`: the label is "Stable signal". -/
theorem updateReadout_label_witness :
    ∃ w1, updateReadout (startWorld Elements.blank) (Sample.ofReadings "home" (-65) 10 5) =
        Except.ok w1 ∧
      w1.elements.quality = "Stable signal" := by
  obtain ⟨w1, hok, hlabel⟩ := (updateReadout_label (startWorld Elements.blank)
    (Sample.ofReadings "home" (-65) 10 5)
    (by simp [Sample.throughputsTyped, Sample.ofReadings])).1
  refine ⟨w1, hok, ?_⟩
  rw [hlabel]
  have hq : normalizeSignal (Sample.ofReadings "home" (-65) 10 5).signal_dbm =
      JSNum.fin 50 := by
    show normalizeSignal (JSValue.num (JSNum.fin (-65))) = JSNum.fin 50
    rw [normalizeSignal_fin]
    norm_num
  rw [hq]
  norm_num [qualityLabel, JSNum.ge_fin_fin]

/-! ## The render loop -/

/-- A render tick leaves `targetQuality` and `lastSignal` alone. -/
theorem renderGauge_target (w : World) :
    (renderGauge w).state.targetQuality = w.state.targetQuality ∧
      (renderGauge w).state.lastSignal = w.state.lastSignal :=
  ⟨rfl, rfl⟩

/-- Any number of render ticks leaves `targetQuality` alone. -/
theorem renderGauge_iterate_target (n : ℕ) (w : World) :
    (renderGauge^[n] w).state.targetQuality = w.state.targetQuality := by
  induction n with
  | zero => rfl
  | succ n ih => rw [Function.iterate_succ_apply', (renderGauge_target _).1, ih]

/-- C19: `handleStatus` is idempotent on `targetQuality`: applying it with the same
report a second time, after any number of render ticks, leaves `targetQuality` at its
value after the first application. -/
theorem handleStatus_idempotent (w : World) (status : Status) (n : ℕ) :
    (handleStatus (renderGauge^[n] (handleStatus w status).world)
        status).world.state.targetQuality =
      (handleStatus w status).world.state.targetQuality := by
  rw [handleStatus_target (renderGauge^[n] (handleStatus w status).world) status,
    renderGauge_iterate_target, handleStatus_target w status]
  cases pickBestSample status.interfaces with
  | none => rfl
  | some sample =>
    by_cases h : (mbpsText sample.rx_mbps).isSome ∧ (mbpsText sample.tx_mbps).isSome
    · simp only [h, and_self, if_true]
    · simp only [h, if_false]

/-- On finite values a render tick moves `displayQuality` by `2/25` of its distance
to `targetQuality`. -/
theorem renderGauge_fin (w : World) (t d : ℚ) (ht : w.state.targetQuality = JSNum.fin t)
    (hd : w.state.displayQuality = JSNum.fin d) :
    (renderGauge w).state.displayQuality = JSNum.fin (d + (t - d) * (2 / 25)) := by
  simp only [renderGauge, ht, hd, JSNum.sub, JSNum.neg, JSNum.add, JSNum.mul]
  congr 1
  ring

/-- After `n` render ticks on finite values the distance to the target is the initial
one times `(23/25) ^ n`. -/
theorem renderGauge_iterate_fin (n : ℕ) (w : World) (t d : ℚ)
    (ht : w.state.targetQuality = JSNum.fin t) (hd : w.state.displayQuality = JSNum.fin d) :
    (renderGauge^[n] w).state.displayQuality = JSNum.fin (t + (23 / 25) ^ n * (d - t)) := by
  induction n with
  | zero => simp [hd]
  | succ n ih =>
    rw [Function.iterate_succ_apply',
      renderGauge_fin _ t _ (by rw [renderGauge_iterate_target, ht]) ih]
    congr 1
    ring

/-- C17: with `targetQuality` held at `t` and `displayQuality` starting at `d ≠ t`
(exact arithmetic on finite values), every render tick strictly decreases
`|displayQuality - t|` and keeps the sign of `t - displayQuality`, so the displayed
value never overshoots; and after any number of ticks it is still different from
`t`. -/
theorem renderGauge_approach (w : World) (t d : ℚ)
    (ht : w.state.targetQuality = JSNum.fin t) (hd : w.state.displayQuality = JSNum.fin d)
    (hne : d ≠ t) (n : ℕ) :
    ∃ dn dn1 : ℚ,
      (renderGauge^[n] w).state.targetQuality = JSNum.fin t ∧
      (renderGauge^[n] w).state.displayQuality = JSNum.fin dn ∧
      (renderGauge (renderGauge^[n] w)).state.displayQuality = JSNum.fin dn1 ∧
      |dn1 - t| < |dn - t| ∧
      (0 < t - dn → 0 < t - dn1) ∧ (t - dn < 0 → t - dn1 < 0) ∧
      dn ≠ t ∧ dn1 ≠ t := by
  have hpow : (0 : ℚ) < (23 / 25) ^ n := by positivity
  have hdn : (renderGauge^[n] w).state.displayQuality =
      JSNum.fin (t + (23 / 25) ^ n * (d - t)) := renderGauge_iterate_fin n w t d ht hd
  have htn : (renderGauge^[n] w).state.targetQuality = JSNum.fin t := by
    rw [renderGauge_iterate_target, ht]
  have hdt : d - t ≠ 0 := sub_ne_zero.mpr hne
  have hgap : (23 / 25 : ℚ) ^ n * (d - t) ≠ 0 := mul_ne_zero hpow.ne' hdt
  refine ⟨t + (23 / 25) ^ n * (d - t),
    (t + (23 / 25) ^ n * (d - t)) + (t - (t + (23 / 25) ^ n * (d - t))) * (2 / 25),
    htn, hdn, renderGauge_fin _ t _ htn hdn, ?_, ?_, ?_, ?_, ?_⟩
  · have e1 : (t + (23 / 25) ^ n * (d - t)) +
        (t - (t + (23 / 25) ^ n * (d - t))) * (2 / 25) - t =
          (23 / 25) * ((23 / 25) ^ n * (d - t)) := by ring
    have e2 : t + (23 / 25) ^ n * (d - t) - t = (23 / 25) ^ n * (d - t) := by ring
    rw [e1, e2, abs_mul]
    have hpos : 0 < |(23 / 25 : ℚ) ^ n * (d - t)| := abs_pos.mpr hgap
    have : |(23 / 25 : ℚ)| = 23 / 25 := abs_of_pos (by norm_num)
    rw [this]
    linarith
  · intro h
    linarith
  · intro h
    linarith
  · intro h
    apply hgap
    linarith
  · intro h
    apply hgap
    linarith

/-- C17 from the startup display `0` toward a target of `50`: the first tick moves
the display to `4`, short of the target. -/
theorem renderGauge_approach_witness :
    ∃ dn dn1 : ℚ,
      (renderGauge^[0] { startWorld Elements.blank with
          state := { state with targetQuality := JSNum.fin 50 } }).state.displayQuality =
        JSNum.fin dn ∧
      (renderGauge (renderGauge^[0] { startWorld Elements.blank with
          state := { state with targetQuality := JSNum.fin 50 } })).state.displayQuality =
        JSNum.fin dn1 ∧
      |dn1 - 50| < |dn - 50| ∧ dn1 ≠ 50 := by
  obtain ⟨dn, dn1, -, h1, h2, h3, -, -, -, h4⟩ := renderGauge_approach
    { startWorld Elements.blank with state := { state with targetQuality := JSNum.fin 50 } }
    50 0 rfl rfl (by norm_num) 0
  exact ⟨dn, dn1, h1, h2, h3, h4⟩

/-! ## The quality bounds along a run -/

/-- Folding the reducer returns the accumulator or a sample of the list. -/
theorem pickBestSample.foldl_mem (l : List Sample) (acc : Option Sample) (r : Sample)
    (h : l.foldl pickBestSample.reducer acc = some r) : acc = some r ∨ r ∈ l := by
  induction l generalizing acc with
  | nil => exact Or.inl h
  | cons x xs ih =>
    rw [List.foldl_cons] at h
    rcases ih _ h with h1 | h1
    · cases acc with
      | none =>
        right
        have : x = r := Option.some.inj h1
        simp [this]
      | some b =>
        rcases pickBestSample.reducer_some b x with h2 | h2
        · right
          rw [h2] at h1
          have : x = r := Option.some.inj h1
          simp [this]
        · left
          rw [← h2, h1]
    · exact Or.inr (List.mem_cons_of_mem _ h1)

/-- The sample the selector returns is a sample of the list. -/
theorem pickBestSample_mem (samples : Option (List Sample)) (r : Sample)
    (h : pickBestSample samples = some r) : ∃ l, samples = some l ∧ r ∈ l := by
  cases samples with
  | none => exact Option.noConfusion h
  | some l =>
    refine ⟨l, rfl, ?_⟩
    simp only [pickBestSample] at h
    split_ifs at h with hlen
    rcases pickBestSample.foldl_mem l none r h with h1 | h1
    · exact Option.noConfusion h1
    · exact h1

/-- On a report whose samples all carry a signal strength, `handleStatus` keeps
`targetQuality` an integer of `[0, 100]` and leaves `displayQuality` alone. -/
theorem handleStatus_bounded (w : World) (status : Status) (hs : status.signalsPresent)
    (hw : ∃ q : ℤ, 0 ≤ q ∧ q ≤ 100 ∧ w.state.targetQuality = JSNum.fin q) :
    (∃ q : ℤ, 0 ≤ q ∧ q ≤ 100 ∧
        (handleStatus w status).world.state.targetQuality = JSNum.fin q) ∧
      (handleStatus w status).world.state.displayQuality = w.state.displayQuality := by
  constructor
  · rw [handleStatus_target]
    cases hp : pickBestSample status.interfaces with
    | none => exact hw
    | some sample =>
      obtain ⟨l, hl, hmem⟩ := pickBestSample_mem _ _ hp
      simp only
      split_ifs
      · exact normalizeSignal_range_of_ne_undefined _ (hs l hl sample hmem)
      · exact hw
  · simp only [handleStatus]
    cases pickBestSample status.interfaces with
    | none => rfl
    | some sample => exact (updateReadout_frame w sample).1

/-- A render tick keeps a finite `displayQuality` of `[0, 100]` in `[0, 100]` when the
target is in `[0, 100]`: the new value is a convex combination of the two. -/
theorem renderGauge_bounded (w : World) (t d : ℚ)
    (ht : w.state.targetQuality = JSNum.fin t) (hd : w.state.displayQuality = JSNum.fin d)
    (ht0 : 0 ≤ t) (ht100 : t ≤ 100) (hd0 : 0 ≤ d) (hd100 : d ≤ 100) :
    ∃ d1 : ℚ, (renderGauge w).state.displayQuality = JSNum.fin d1 ∧
      d1 = 23 / 25 * d + 2 / 25 * t ∧ 0 ≤ d1 ∧ d1 ≤ 100 := by
  refine ⟨d + (t - d) * (2 / 25), renderGauge_fin w t d ht hd, by ring, ?_, ?_⟩
  · linarith
  · linarith

/-- Along every run from startup whose reports all carry a signal strength in every
sample, `targetQuality` is an integer of `[0, 100]` and `displayQuality` a finite value
of `[0, 100]`. -/
theorem run_bounded (w : World) (events : List Event)
    (hev : ∀ ev ∈ events, ev.signalsPresent)
    (hw : ∃ (q : ℤ) (d : ℚ), 0 ≤ q ∧ q ≤ 100 ∧ w.state.targetQuality = JSNum.fin q ∧
      w.state.displayQuality = JSNum.fin d ∧ 0 ≤ d ∧ d ≤ 100) :
    ∃ (q : ℤ) (d : ℚ), 0 ≤ q ∧ q ≤ 100 ∧
      (run w events).state.targetQuality = JSNum.fin q ∧
      (run w events).state.displayQuality = JSNum.fin d ∧ 0 ≤ d ∧ d ≤ 100 := by
  induction events generalizing w with
  | nil => exact hw
  | cons ev evs ih =>
    have hstep : ∃ (q : ℤ) (d : ℚ), 0 ≤ q ∧ q ≤ 100 ∧
        (step w ev).state.targetQuality = JSNum.fin q ∧
        (step w ev).state.displayQuality = JSNum.fin d ∧ 0 ≤ d ∧ d ≤ 100 := by
      obtain ⟨q, d, hq0, hq100, htq, hdq, hd0, hd100⟩ := hw
      have hsig := hev ev (by simp)
      cases ev with
      | pullNetworkError => exact ⟨q, d, hq0, hq100, htq, hdq, hd0, hd100⟩
      | pullNotOk => exact ⟨q, d, hq0, hq100, htq, hdq, hd0, hd100⟩
      | pullBadBody => exact ⟨q, d, hq0, hq100, htq, hdq, hd0, hd100⟩
      | streamError => exact ⟨q, d, hq0, hq100, htq, hdq, hd0, hd100⟩
      | pullData data =>
        obtain ⟨⟨q1, h1, h2, h3⟩, h4⟩ := handleStatus_bounded w data hsig ⟨q, hq0, hq100, htq⟩
        refine ⟨q1, d, h1, h2, ?_, ?_, hd0, hd100⟩
        · simp only [step]
          cases hh : handleStatus w data with
          | ok w1 => rw [hh] at h3; exact h3
          | error w1 => rw [hh] at h3; exact h3
        · simp only [step]
          cases hh : handleStatus w data with
          | ok w1 => rw [hh] at h4; rw [← hdq]; exact h4
          | error w1 => rw [hh] at h4; rw [← hdq]; exact h4
      | pushMessage data =>
        cases data with
        | none => exact ⟨q, d, hq0, hq100, htq, hdq, hd0, hd100⟩
        | some data =>
          obtain ⟨⟨q1, h1, h2, h3⟩, h4⟩ :=
            handleStatus_bounded w data hsig ⟨q, hq0, hq100, htq⟩
          exact ⟨q1, d, h1, h2, h3, by rw [← hdq]; exact h4, hd0, hd100⟩
      | frame =>
        have hq0' : (0 : ℚ) ≤ q := by exact_mod_cast hq0
        have hq100' : (q : ℚ) ≤ 100 := by exact_mod_cast hq100
        obtain ⟨d1, h1, -, h2, h3⟩ := renderGauge_bounded w q d htq hdq hq0' hq100' hd0 hd100
        exact ⟨q, d1, hq0, hq100, htq, h1, h2, h3⟩
    exact ih (step w ev) (fun e he => hev e (List.mem_cons_of_mem _ he)) hstep

/-- After a render tick that leaves `displayQuality` at a finite value of `[0, 100]`,
the fill offset written to the page is in `[0, 410]` and the needle angle in
`[-90, 90]`. -/
theorem renderGauge_visual (w : World) (t d : ℚ)
    (ht : w.state.targetQuality = JSNum.fin t) (hd : w.state.displayQuality = JSNum.fin d)
    (ht0 : 0 ≤ t) (ht100 : t ≤ 100) (hd0 : 0 ≤ d) (hd100 : d ≤ 100) :
    ∃ offset angle : ℚ,
      (renderGauge w).elements.gaugeFillOffset = [TextPiece.num (JSNum.fin offset)] ∧
      (renderGauge w).elements.needleTransform =
        [TextPiece.lit "translateX(-50%) rotate(", TextPiece.num (JSNum.fin angle),
          TextPiece.lit "deg)"] ∧
      0 ≤ offset ∧ offset ≤ 410 ∧ -90 ≤ angle ∧ angle ≤ 90 := by
  refine ⟨410 - 410 * (d + (t - d) * (2 / 25)) / 100,
    -90 + (d + (t - d) * (2 / 25)) / 100 * 180, ?_, ?_, ?_, ?_, ?_, ?_⟩
  · simp only [renderGauge, ht, hd, GAUGE_LENGTH, JSNum.sub, JSNum.neg, JSNum.add, JSNum.mul,
      JSNum.div]
    norm_num
    ring
  · simp only [renderGauge, ht, hd, GAUGE_LENGTH, JSNum.sub, JSNum.neg, JSNum.add, JSNum.mul,
      JSNum.div]
    norm_num
    ring
  · linarith
  · linarith
  · linarith
  · linarith

/-- C13, as the code runs it: from startup, a push message whose one sample has no
`signal_dbm` field sets `targetQuality` to `NaN`, which is no value of `[0, 100]`. -/
theorem run_missing_signal_targetQuality :
    (run (startWorld Elements.blank)
        [Event.pushMessage (some { interfaces := some [Sample.named "lab"] })]
      ).state.targetQuality = JSNum.nan ∧
      ¬ ∃ q : ℚ, 0 ≤ q ∧ q ≤ 100 ∧
        (run (startWorld Elements.blank)
          [Event.pushMessage (some { interfaces := some [Sample.named "lab"] })]
        ).state.targetQuality = JSNum.fin q := by
  have h : (run (startWorld Elements.blank)
      [Event.pushMessage (some { interfaces := some [Sample.named "lab"] })]
    ).state.targetQuality = JSNum.nan := by
    simp [run, step, handleStatus, pickBestSample, pickBestSample.reducer, updateReadout,
      mbpsText, JSValue.truthy, Sample.named, Except.world, normalizeSignal_undefined]
  refine ⟨h, ?_⟩
  rintro ⟨q, -, -, hq⟩
  rw [h] at hq
  exact JSNum.noConfusion hq

/-- C20, as the code runs it: from startup, a push message whose one sample has no
`signal_dbm` field followed by one render tick leaves `displayQuality` at `NaN`,
which is no value of `[0, 100]`, and writes `NaN` as the fill offset. -/
theorem run_missing_signal_displayQuality :
    (run (startWorld Elements.blank)
        [Event.pushMessage (some { interfaces := some [Sample.named "lab"] }), Event.frame]
      ).state.displayQuality = JSNum.nan ∧
      (run (startWorld Elements.blank)
        [Event.pushMessage (some { interfaces := some [Sample.named "lab"] }), Event.frame]
      ).elements.gaugeFillOffset = [TextPiece.num JSNum.nan] ∧
      ¬ ∃ d : ℚ, 0 ≤ d ∧ d ≤ 100 ∧
        (run (startWorld Elements.blank)
          [Event.pushMessage (some { interfaces := some [Sample.named "lab"] }), Event.frame]
        ).state.displayQuality = JSNum.fin d := by
  have h : (run (startWorld Elements.blank)
      [Event.pushMessage (some { interfaces := some [Sample.named "lab"] }), Event.frame]
    ).state.displayQuality = JSNum.nan := by
    simp [run, step, handleStatus, pickBestSample, pickBestSample.reducer, updateReadout,
      mbpsText, JSValue.truthy, Sample.named, Except.world, normalizeSignal_undefined,
      renderGauge, startWorld, state, JSNum.sub, JSNum.add, JSNum.mul, JSNum.neg]
  refine ⟨h, ?_, ?_⟩
  · simp [run, step, handleStatus, pickBestSample, pickBestSample.reducer, updateReadout,
      mbpsText, JSValue.truthy, Sample.named, Except.world, normalizeSignal_undefined,
      renderGauge, startWorld, state, JSNum.sub, JSNum.add, JSNum.mul, JSNum.neg, JSNum.div,
      GAUGE_LENGTH]
  · rintro ⟨d, -, -, hd⟩
    rw [h] at hd
    exact JSNum.noConfusion hd
